import Mathlib

/-!
Bonito health HAL (`health/Health.cpp`): shallow embedding

The file under verification is glue code: it reads a handful of sysfs files
with `std::ifstream`, fills two HIDL records, and forwards every battery
update through nine battery controllers that live in other libraries.

The embedding has three layers.

* `IStream`, `extractUnsigned`: the part of the C++ stream library that the
  file relies on (opening a file, `unsetf(basefield)`, `operator>>` into an
  unsigned integer).  The numeric extraction follows libc++ (the C++ library
  of the platform): stage 2 collects characters, stage 3 hands them to
  `strtoull`.
* The storage queries `private_get_storage_info`, `private_get_disk_stats`,
  `HealthImpl.getStorageInfo`, `HealthImpl.getDiskStats`, as functions of the
  file system.
* The monitor chain `private_healthd_board_battery_update`, the bootstrap
  `HIDL_FETCH_IHealth` and `HealthImpl.UpdateHealthInfo`, over controllers
  that are parameters (`Handlers`), with a call log that records every
  controller call and the argument it received.
-/

namespace Health

/-! ## Definitions -/

/-- A file system as the code sees it: the text of every file that can be
opened, `none` for a path that cannot be opened. -/
abbrev FileSystem := String → Option String

/-- State of a `std::ifstream`: unread characters, `failbit`, `eofbit`, and the
numeric base selected by `basefield` (10 for `dec`, 0 when the field is
cleared, 8 and 16 for `oct` and `hex`). -/
structure IStream where
  buf : List Char
  failbit : Bool
  eofbit : Bool
  base : Nat
  deriving DecidableEq, Repr

/-- `std::ios::good()`: no error flag is set. -/
def IStream.good (s : IStream) : Bool := !s.failbit && !s.eofbit

/-- `stream.unsetf(std::ios_base::basefield)`: the base is detected from the text. -/
def IStream.unsetf_basefield (s : IStream) : IStream := { s with base := 0 }

/-- `assert_open` (Health.cpp:90-96). A path that cannot be opened gives a
stream with `failbit` set (and a warning in the log, which is not modelled);
a fresh stream has `basefield = dec`. -/
def assert_open (fs : FileSystem) (path : String) : IStream :=
  match fs path with
  | some text => { buf := text.data, failbit := false, eofbit := false, base := 10 }
  | none => { buf := [], failbit := true, eofbit := false, base := 10 }

/-- `isspace` in the C locale: space, and the controls 9 to 13. -/
def isspace (c : Char) : Bool := c.toNat = 32 || (9 ≤ c.toNat && c.toNat ≤ 13)

/-- Position of a character in the atoms `0123456789abcdefABCDEFxX+-` of
`num_get`, 26 when it is not one of them. -/
def atomIndex (c : Char) : Nat :=
  let n := c.toNat
  if 48 ≤ n ∧ n ≤ 57 then n - 48
  else if 97 ≤ n ∧ n ≤ 102 then n - 87
  else if 65 ≤ n ∧ n ≤ 70 then n - 49
  else if n = 120 then 22
  else if n = 88 then 23
  else if n = 43 then 24
  else if n = 45 then 25
  else 26

/-- One step of stage 2 of `num_get` (`__stage2_int_loop` of libc++, no digit
grouping in the C locale): `some` is the field with the character appended,
`none` ends the field. -/
def stage2_int_loop (base : Nat) (a : List Char) (ct : Char) : Option (List Char) :=
  if a = [] ∧ (atomIndex ct = 24 ∨ atomIndex ct = 25) then some [ct]
  else
    let f := atomIndex ct
    if 24 ≤ f then none
    else if base = 8 ∨ base = 10 then
      if base ≤ f then none else some (a ++ [ct])
    else if base = 16 then
      if f < 22 then some (a ++ [ct])
      else if a ≠ [] ∧ a.length ≤ 2 ∧ a.getLast? = some (Char.ofNat 48) then some (a ++ [ct])
      else none
    else some (a ++ [ct])

/-- Stage 2 of `num_get`: collect the field `a`; the result is the field and
the unread rest of the input. -/
def stage2 (base : Nat) : List Char → List Char → List Char × List Char
  | a, [] => (a, [])
  | a, c :: cs =>
    match stage2_int_loop base a c with
    | some a1 => stage2 base a1 cs
    | none => (a, c :: cs)

/-- Value of a character as a digit (`0-9`, `a-z`, `A-Z`), as `strtoull` reads it. -/
def digitValue (c : Char) : Option Nat :=
  let n := c.toNat
  if 48 ≤ n ∧ n ≤ 57 then some (n - 48)
  else if 97 ≤ n ∧ n ≤ 122 then some (n - 87)
  else if 65 ≤ n ∧ n ≤ 90 then some (n - 55)
  else none

/-- Digit loop of `strtoull`: reads digits below `base`, returns the value
(unbounded), the unread rest and whether a digit was read. -/
def digitsLoop (base : Nat) : Nat → Bool → List Char → Nat × List Char × Bool
  | acc, any, [] => (acc, [], any)
  | acc, any, c :: cs =>
    match digitValue c with
    | some d => if d < base then digitsLoop base (acc * base + d) true cs else (acc, c :: cs, any)
    | none => (acc, c :: cs, any)

/-- The C function `strtoull(s, &end, base)`: value, unread rest (all of `s`
when nothing was converted) and the `ERANGE` flag. -/
def strtoull (base : Nat) (s : List Char) : Nat × List Char × Bool :=
  let s1 := s.dropWhile isspace
  let neg := s1.head? = some (Char.ofNat 45)
  let s2 := if neg ∨ s1.head? = some (Char.ofNat 43) then s1.tail else s1
  let hexMarker : Bool :=
    decide (base = 0 ∨ base = 16) && decide (s2.head? = some (Char.ofNat 48)) &&
    decide (s2.tail.head? = some (Char.ofNat 120) ∨ s2.tail.head? = some (Char.ofNat 88)) &&
    (match s2.tail.tail.head? with
      | some c => (match digitValue c with | some d => decide (d < 16) | none => false)
      | none => false)
  let s3 := if hexMarker then s2.tail.tail else s2
  let b := if hexMarker then 16
    else if base = 0 then (if s2.head? = some (Char.ofNat 48) then 8 else 10)
    else base
  match digitsLoop b 0 false s3 with
  | (v, rest, any) =>
    if !any then (0, s, false)
    else if 2 ^ 64 ≤ v then (2 ^ 64 - 1, rest, true)
    else if neg then ((2 ^ 64 - v) % 2 ^ 64, rest, false)
    else (v, rest, false)

/-- Stage 3 of `num_get` for an unsigned type of `w` bits
(`__num_get_unsigned_integral` of libc++): the stored value and `failbit`. -/
def num_get_unsigned_integral (w base : Nat) (a : List Char) : Nat × Bool :=
  if a = [] then (0, true)
  else
    let negate := a.head? = some (Char.ofNat 45)
    let a1 := if negate then a.tail else a
    if negate ∧ a1 = [] then (0, true)
    else
      match strtoull base a1 with
      | (ll, rest, erange) =>
        if rest ≠ [] then (0, true)
        else if erange ∨ 2 ^ w - 1 < ll then (2 ^ w - 1, true)
        else if negate then ((2 ^ w - ll) % 2 ^ w, false)
        else (ll, false)

/-- `stream >> x` for an unsigned integer `x` of `w` bits whose value before
the call is `old`. A stream that is not good, or that holds only white space,
fails in the sentry and leaves `x` as it was; otherwise the field is read and
converted (zero on a malformed field, the maximum on overflow). -/
def extractUnsigned (w : Nat) (s : IStream) (old : Nat) : IStream × Nat :=
  if !s.good then ({ s with failbit := true }, old)
  else
    let b := s.buf.dropWhile isspace
    if b = [] then ({ s with buf := [], failbit := true, eofbit := true }, old)
    else
      match stage2 s.base [] b with
      | (a, rest) =>
        match num_get_unsigned_integral w s.base a with
        | (v, fail) => ({ s with buf := rest, failbit := fail, eofbit := decide (rest = []) }, v)

/-- `read_value_from_file<T>` (Health.cpp:98-103) for an unsigned `T` of `w`
bits: `field` is the value of `*field` before the call, the result its value
after it. -/
def read_value_from_file (fs : FileSystem) (w : Nat) (path : String) (field : Nat) : Nat :=
  let stream := assert_open fs path
  let stream := stream.unsetf_basefield
  (extractUnsigned w stream field).2

/-- Modelled from the spec: the HIDL enumeration `Result` of the health 2.0
interface (declared outside `src/`); the queries report `SUCCESS` or
`NOT_SUPPORTED`. -/
inductive Result where
  | SUCCESS
  | NOT_SUPPORTED
  | UNKNOWN
  | NOT_FOUND
  | CALLBACK_DIED
  deriving DecidableEq, Repr

/-- Modelled from the spec: the HIDL record `StorageAttribute` (declared
outside `src/`): name and internal/boot flags of a storage device. -/
structure StorageAttribute where
  isInternal : Bool
  isBootDevice : Bool
  name : String
  deriving DecidableEq, Repr

/-- Modelled from the spec: the HIDL record `StorageInfo` (declared outside
`src/`): attributes, the three `uint16_t` life-time metrics and the version
string. -/
structure StorageInfo where
  attr : StorageAttribute
  eol : Nat
  lifetimeA : Nat
  lifetimeB : Nat
  version : String
  deriving DecidableEq, Repr

/-- Modelled from the spec: the HIDL record `DiskStats` (declared outside
`src/`): eleven cumulative `uint64_t` counters and the attributes. -/
structure DiskStats where
  reads : Nat
  readMerges : Nat
  readSectors : Nat
  readTicks : Nat
  writes : Nat
  writeMerges : Nat
  writeSectors : Nat
  writeTicks : Nat
  ioInFlight : Nat
  ioTicks : Nat
  ioInQueue : Nat
  attr : StorageAttribute
  deriving DecidableEq, Repr

/-- Value-initialised `StorageAttribute` (what `vector::resize` inserts). -/
def StorageAttribute.zero : StorageAttribute :=
  { isInternal := false, isBootDevice := false, name := "" }

/-- Value-initialised `StorageInfo`: every scalar is zero. -/
def StorageInfo.zero : StorageInfo :=
  { attr := StorageAttribute.zero, eol := 0, lifetimeA := 0, lifetimeB := 0, version := "" }

/-- Value-initialised `DiskStats`: every counter is zero. -/
def DiskStats.zero : DiskStats :=
  { reads := 0, readMerges := 0, readSectors := 0, readTicks := 0, writes := 0,
    writeMerges := 0, writeSectors := 0, writeTicks := 0, ioInFlight := 0, ioTicks := 0,
    ioInQueue := 0, attr := StorageAttribute.zero }

/-- `std::vector::resize(n)`: truncate, or append value-initialised elements. -/
def resize {α : Type} (zero : α) (n : Nat) (v : List α) : List α :=
  v.take n ++ List.replicate (n - v.length) zero

/-- Path of the eMMC end-of-life estimate (Health.cpp:83). -/
def kEmmcHealthEol : String := "/sys/devices/platform/soc/7c4000.sdhci/health/eol"

/-- Path of the eMMC life-time estimate A (Health.cpp:84). -/
def kEmmcHealthLifetimeA : String := "/sys/devices/platform/soc/7c4000.sdhci/health/lifetimeA"

/-- Path of the eMMC life-time estimate B (Health.cpp:85). -/
def kEmmcHealthLifetimeB : String := "/sys/devices/platform/soc/7c4000.sdhci/health/lifetimeB"

/-- Path of the eMMC firmware revision (Health.cpp:86). -/
def kEmmcVersion : String := "/sys/block/mmcblk0/device/fwrev"

/-- Path of the block-device statistics (Health.cpp:87). -/
def kDiskStatsFile : String := "/sys/block/mmcblk0/stat"

/-- Name reported for the device (Health.cpp:88). -/
def kEmmcName : String := "MMC0"

/-- What `ss << std::hex << value` writes: lower-case hexadecimal, no prefix. -/
def hexString (value : Nat) : String := String.mk (Nat.toDigits 16 value)

/-- `read_emmc_version` (Health.cpp:105-111). The local `uint64_t value` is
declared without an initialiser; `uninit` is the indeterminate content it has
at that point, which a failed read leaves in place. -/
def read_emmc_version (fs : FileSystem) (uninit : Nat) (info : StorageInfo) : StorageInfo :=
  let value := uninit % 2 ^ 64
  let value := read_value_from_file fs 64 kEmmcVersion value
  { info with version := "mmc0 " ++ hexString value }

/-- `fill_emmc_storage_attribute` (Health.cpp:113-117). -/
def fill_emmc_storage_attribute (attr : StorageAttribute) : StorageAttribute :=
  { attr with isInternal := true, isBootDevice := true, name := kEmmcName }

/-- `private_get_storage_info` (Health.cpp:137-147): the vector after the call. -/
def private_get_storage_info (fs : FileSystem) (uninit : Nat)
    (vec_storage_info : List StorageInfo) : List StorageInfo :=
  match resize StorageInfo.zero 1 vec_storage_info with
  | [] => []
  | storage_info :: others =>
    let storage_info := { storage_info with attr := fill_emmc_storage_attribute storage_info.attr }
    let storage_info := read_emmc_version fs uninit storage_info
    let storage_info :=
      { storage_info with eol := read_value_from_file fs 16 kEmmcHealthEol storage_info.eol }
    let storage_info :=
      { storage_info with
        lifetimeA := read_value_from_file fs 16 kEmmcHealthLifetimeA storage_info.lifetimeA }
    let storage_info :=
      { storage_info with
        lifetimeB := read_value_from_file fs 16 kEmmcHealthLifetimeB storage_info.lifetimeB }
    storage_info :: others

/-- `private_get_disk_stats` (Health.cpp:149-168): the vector after the call.
The stream keeps `basefield = dec`; the eleven extractions share it. -/
def private_get_disk_stats (fs : FileSystem) (vec_stats : List DiskStats) : List DiskStats :=
  match resize DiskStats.zero 1 vec_stats with
  | [] => []
  | stats :: others =>
    let stats := { stats with attr := fill_emmc_storage_attribute stats.attr }
    let stream := assert_open fs kDiskStatsFile
    let r1 := extractUnsigned 64 stream stats.reads
    let r2 := extractUnsigned 64 r1.1 stats.readMerges
    let r3 := extractUnsigned 64 r2.1 stats.readSectors
    let r4 := extractUnsigned 64 r3.1 stats.readTicks
    let r5 := extractUnsigned 64 r4.1 stats.writes
    let r6 := extractUnsigned 64 r5.1 stats.writeMerges
    let r7 := extractUnsigned 64 r6.1 stats.writeSectors
    let r8 := extractUnsigned 64 r7.1 stats.writeTicks
    let r9 := extractUnsigned 64 r8.1 stats.ioInFlight
    let r10 := extractUnsigned 64 r9.1 stats.ioTicks
    let r11 := extractUnsigned 64 r10.1 stats.ioInQueue
    { stats with
      reads := r1.2, readMerges := r2.2, readSectors := r3.2, readTicks := r4.2,
      writes := r5.2, writeMerges := r6.2, writeSectors := r7.2, writeTicks := r8.2,
      ioInFlight := r9.2, ioTicks := r10.2, ioInQueue := r11.2 } :: others

/-- `HealthImpl::getStorageInfo` (Health.cpp:196-207): the pair handed to the
callback. -/
def HealthImpl.getStorageInfo (fs : FileSystem) (uninit : Nat) : Result × List StorageInfo :=
  let info := private_get_storage_info fs uninit []
  if info.length = 0 then (Result.NOT_SUPPORTED, info) else (Result.SUCCESS, info)

/-- `HealthImpl::getDiskStats` (Health.cpp:209-220): the pair handed to the
callback. -/
def HealthImpl.getDiskStats (fs : FileSystem) : Result × List DiskStats :=
  let stats := private_get_disk_stats fs []
  if stats.length = 0 then (Result.NOT_SUPPORTED, stats) else (Result.SUCCESS, stats)

/-- A file system in which no file can be opened. -/
def noFiles : FileSystem := fun _ => none

/-- Modelled from the spec: the snapshot `struct android::BatteryProperties`
(declared outside `src/`): charger state, charging status, health, level,
voltage, temperature, current, cycle count and capacity. The chain itself
reads only `batteryLevel`. -/
structure BatteryProperties where
  chargerAcOnline : Bool
  chargerUsbOnline : Bool
  chargerWirelessOnline : Bool
  maxChargingCurrent : Int
  maxChargingVoltage : Int
  batteryStatus : Int
  batteryHealth : Int
  batteryPresent : Bool
  batteryLevel : Int
  batteryVoltage : Int
  batteryTemperature : Int
  batteryCurrent : Int
  batteryCycleCount : Int
  batteryFullCharge : Int
  batteryChargeCounter : Int
  batteryTechnology : String
  deriving DecidableEq, Repr

/-- One call from `Health.cpp` into a controller or the framework, with the
argument the callee received. -/
inductive Call where
  | battRechargingControl_updateBatteryProperties (props : BatteryProperties)
  | deviceHealth_update (props : BatteryProperties)
  | battThermalControl_updateThermalState (props : BatteryProperties)
  | battInfoUpdate_update (props : BatteryProperties)
  | battMetricsLogger_logBatteryProperties (props : BatteryProperties)
  | shutdownMetrics_logShutdownVoltage (props : BatteryProperties)
  | ccBackupRestoreBMS_Backup (batteryLevel : Int)
  | lcBackupRestore_Backup
  | battDefender_update (props : BatteryProperties)
  | ccBackupRestoreBMS_Restore
  | lcBackupRestore_Restore
  | InitHealthdConfig
  deriving DecidableEq, Repr

/-- The call is one of the two `Backup` calls of a health-update tick. -/
def Call.isBackup : Call → Bool
  | .ccBackupRestoreBMS_Backup _ => true
  | .lcBackupRestore_Backup => true
  | _ => false

/-- The call is one of the two `Restore` calls. -/
def Call.isRestore : Call → Bool
  | .ccBackupRestoreBMS_Restore => true
  | .lcBackupRestore_Restore => true
  | _ => false

/-- The controllers and framework functions that `Health.cpp` calls and that
are defined elsewhere. `W` is the state they own (their private fields, the
files they write), `C` is `healthd_config`. A controller that takes
`BatteryProperties*` may rewrite the snapshot. `none` is a call that does not
return to its caller (it raises an exception); `Health.cpp` has no handler
for that, so it leaves the calling function too. -/
structure Handlers (W C : Type) where
  battRechargingControl_updateBatteryProperties :
    W → BatteryProperties → Option (W × BatteryProperties)
  deviceHealth_update : W → BatteryProperties → Option (W × BatteryProperties)
  battThermalControl_updateThermalState : W → BatteryProperties → Option (W × BatteryProperties)
  battInfoUpdate_update : W → BatteryProperties → Option (W × BatteryProperties)
  battMetricsLogger_logBatteryProperties : W → BatteryProperties → Option (W × BatteryProperties)
  shutdownMetrics_logShutdownVoltage : W → BatteryProperties → Option (W × BatteryProperties)
  ccBackupRestoreBMS_Backup : W → Int → Option W
  lcBackupRestore_Backup : W → Option W
  battDefender_update : W → BatteryProperties → Option (W × BatteryProperties)
  ccBackupRestoreBMS_Restore : W → Option W
  lcBackupRestore_Restore : W → Option W
  InitHealthdConfig : W → C → Option (W × C)
  make_config : C

/-- Controllers all of whose calls return. -/
structure ReturningHandlers (W C : Type) where
  battRechargingControl_updateBatteryProperties : W → BatteryProperties → W × BatteryProperties
  deviceHealth_update : W → BatteryProperties → W × BatteryProperties
  battThermalControl_updateThermalState : W → BatteryProperties → W × BatteryProperties
  battInfoUpdate_update : W → BatteryProperties → W × BatteryProperties
  battMetricsLogger_logBatteryProperties : W → BatteryProperties → W × BatteryProperties
  shutdownMetrics_logShutdownVoltage : W → BatteryProperties → W × BatteryProperties
  ccBackupRestoreBMS_Backup : W → Int → W
  lcBackupRestore_Backup : W → W
  battDefender_update : W → BatteryProperties → W × BatteryProperties
  ccBackupRestoreBMS_Restore : W → W
  lcBackupRestore_Restore : W → W
  InitHealthdConfig : W → C → W × C
  make_config : C

/-- Returning controllers as controllers. -/
def ReturningHandlers.toHandlers {W C : Type} (T : ReturningHandlers W C) : Handlers W C where
  battRechargingControl_updateBatteryProperties w p :=
    some (T.battRechargingControl_updateBatteryProperties w p)
  deviceHealth_update w p := some (T.deviceHealth_update w p)
  battThermalControl_updateThermalState w p := some (T.battThermalControl_updateThermalState w p)
  battInfoUpdate_update w p := some (T.battInfoUpdate_update w p)
  battMetricsLogger_logBatteryProperties w p :=
    some (T.battMetricsLogger_logBatteryProperties w p)
  shutdownMetrics_logShutdownVoltage w p := some (T.shutdownMetrics_logShutdownVoltage w p)
  ccBackupRestoreBMS_Backup w l := some (T.ccBackupRestoreBMS_Backup w l)
  lcBackupRestore_Backup w := some (T.lcBackupRestore_Backup w)
  battDefender_update w p := some (T.battDefender_update w p)
  ccBackupRestoreBMS_Restore w := some (T.ccBackupRestoreBMS_Restore w)
  lcBackupRestore_Restore w := some (T.lcBackupRestore_Restore w)
  InitHealthdConfig w c := some (T.InitHealthdConfig w c)
  make_config := T.make_config

/-- State of the process: the state of the controllers and the calls made so far. -/
structure Sys (W : Type) where
  world : W
  log : List Call

/-- Result of running a piece of `Health.cpp`: it returns a value in a new
state, or a callee did not return and the calls made up to and including
that one are all that happened. -/
inductive Run (W α : Type) where
  | returned (s : Sys W) (a : α)
  | aborted (log : List Call)

/-- The calls made when the run ended. -/
def Run.log {W α : Type} : Run W α → List Call
  | .returned s _ => s.log
  | .aborted l => l

/-- A piece of `Health.cpp` that calls controllers. -/
def Exec (W α : Type) : Type := Sys W → Run W α

/-- Sequencing of statements: the second runs only if the first returned. -/
def Exec.bind {W α β : Type} (m : Exec W α) (f : α → Exec W β) : Exec W β := fun s =>
  match m s with
  | .returned s1 a => f a s1
  | .aborted l => .aborted l

/-- Statements of `Health.cpp` run in sequence. -/
instance {W : Type} : Monad (Exec W) where
  pure a := fun s => .returned s a
  bind := Exec.bind

/-- A call of a controller: it is logged with its argument, and either
returns with the new controller state or does not return. -/
def invoke {W α : Type} (c : Call) (f : W → Option (W × α)) : Exec W α := fun s =>
  match f s.world with
  | some r => .returned { world := r.1, log := s.log ++ [c] } r.2
  | none => .aborted (s.log ++ [c])

/-- A call of a controller method that takes no snapshot pointer: the snapshot
cannot change. -/
def invokeVoid {W : Type} (c : Call) (f : W → Option W) : Exec W Unit :=
  invoke c (fun w => (f w).map (fun w1 => (w1, ())))

/-- `private_healthd_board_init` (Health.cpp:119-122). -/
def private_healthd_board_init {W C : Type} (H : Handlers W C) (_config : C) : Exec W Unit := do
  invokeVoid .ccBackupRestoreBMS_Restore H.ccBackupRestoreBMS_Restore
  invokeVoid .lcBackupRestore_Restore H.lcBackupRestore_Restore

/-- `private_healthd_board_battery_update` (Health.cpp:124-135): the returned
`int` and the snapshot `*props` after the call. -/
def private_healthd_board_battery_update {W C : Type} (H : Handlers W C)
    (props : BatteryProperties) : Exec W (Int × BatteryProperties) := do
  let props ← invoke (.battRechargingControl_updateBatteryProperties props)
    (fun w => H.battRechargingControl_updateBatteryProperties w props)
  let props ← invoke (.deviceHealth_update props) (fun w => H.deviceHealth_update w props)
  let props ← invoke (.battThermalControl_updateThermalState props)
    (fun w => H.battThermalControl_updateThermalState w props)
  let props ← invoke (.battInfoUpdate_update props) (fun w => H.battInfoUpdate_update w props)
  let props ← invoke (.battMetricsLogger_logBatteryProperties props)
    (fun w => H.battMetricsLogger_logBatteryProperties w props)
  let props ← invoke (.shutdownMetrics_logShutdownVoltage props)
    (fun w => H.shutdownMetrics_logShutdownVoltage w props)
  invokeVoid (.ccBackupRestoreBMS_Backup props.batteryLevel)
    (fun w => H.ccBackupRestoreBMS_Backup w props.batteryLevel)
  invokeVoid .lcBackupRestore_Backup H.lcBackupRestore_Backup
  let props ← invoke (.battDefender_update props) (fun w => H.battDefender_update w props)
  return (0, props)

/-- Modelled from the spec: the HIDL record `HealthInfo` of version 2.0
(declared outside `src/`): the 1.0 record `legacy` and further fields, which
`Health.cpp` does not touch. -/
structure HealthInfo_2_0 (V1 E0 : Type) where
  legacy : V1
  others : E0

/-- Modelled from the spec: the HIDL record `HealthInfo` of version 2.1
(declared outside `src/`): the 2.0 record `legacy` and further fields, which
`Health.cpp` does not touch. -/
structure HealthInfo (V1 E0 E1 : Type) where
  legacy : HealthInfo_2_0 V1 E0
  others : E1

/-- The two conversions of `hal_conversion.h` (defined outside `src/`), each
with the record it writes into as its last argument. -/
structure Conversions (V1 : Type) where
  convertFromHealthInfo : V1 → BatteryProperties → BatteryProperties
  convertToHealthInfo : BatteryProperties → V1 → V1

/-- `HealthImpl::UpdateHealthInfo` (Health.cpp:189-194): the record
`*health_info` after the call. `props0` is the content of the local `props`
before the conversion writes into it. -/
def HealthImpl.UpdateHealthInfo {W C V1 E0 E1 : Type} (H : Handlers W C) (K : Conversions V1)
    (props0 : BatteryProperties) (health_info : HealthInfo V1 E0 E1) :
    Exec W (HealthInfo V1 E0 E1) := do
  let props := K.convertFromHealthInfo health_info.legacy.legacy props0
  let r ← private_healthd_board_battery_update H props
  let props := r.2
  return { health_info with
    legacy := { health_info.legacy with
      legacy := K.convertToHealthInfo props health_info.legacy.legacy } }

/-- The service object `HealthImpl`: it owns the configuration. -/
structure HealthImpl (C : Type) where
  config : C

/-- `HIDL_FETCH_IHealth` (Health.cpp:228-239): `none` is `nullptr`. -/
def HIDL_FETCH_IHealth {W C : Type} (H : Handlers W C) (instanceName : String) :
    Exec W (Option (HealthImpl C)) :=
  if instanceName ≠ "default" then pure none
  else do
    let config := H.make_config
    let config ← invoke .InitHealthdConfig (fun w => H.InitHealthdConfig w config)
    private_healthd_board_init H config
    return some { config := config }

/-- The framework delivers health-update ticks to a service object, one after
the other; each tick is the record to update (and the content of the local
snapshot of that call). -/
def serve {W C V1 E0 E1 : Type} (H : Handlers W C) (K : Conversions V1) (_service : HealthImpl C) :
    List (BatteryProperties × HealthInfo V1 E0 E1) → Exec W (List (HealthInfo V1 E0 E1))
  | [] => pure []
  | tick :: ticks => do
    let out ← HealthImpl.UpdateHealthInfo H K tick.1 tick.2
    let outs ← serve H K _service ticks
    return out :: outs

/-- An execution of the process: the framework fetches the service and, if it
got an object, delivers the ticks to it. -/
def execution {W C V1 E0 E1 : Type} (H : Handlers W C) (K : Conversions V1)
    (instanceName : String) (ticks : List (BatteryProperties × HealthInfo V1 E0 E1)) :
    Exec W (Option (List (HealthInfo V1 E0 E1))) := do
  match ← HIDL_FETCH_IHealth H instanceName with
  | none => return none
  | some service =>
    let outs ← serve H K service ticks
    return some outs

/-- `isdigit` in the C locale. -/
def isdigit (c : Char) : Bool := 48 ≤ c.toNat && c.toNat ≤ 57

/-- The characters of a list are digit characters of base `b`. -/
def IsNumeral (b : Nat) (ds : List Char) : Prop :=
  ∀ c ∈ ds, ∃ d, d < b ∧ c = Nat.digitChar d

/-- The file at `path` holds the number `v`: its text is the decimal numeral of
`v`, or `0x` followed by the hexadecimal numeral of `v`. -/
def HoldsNumber (fs : FileSystem) (path : String) (v : Nat) : Prop :=
  fs path = some (toString v) ∨ fs path = some ("0x" ++ hexString v)

/-- The attribute every entry of both queries carries. -/
def emmcAttr : StorageAttribute := { isInternal := true, isBootDevice := true, name := "MMC0" }

/-- A file system with the four eMMC files of a healthy device. -/
def sampleFiles : FileSystem := fun path =>
  if path = kEmmcVersion then some "8"
  else if path = kEmmcHealthEol then some "1"
  else if path = kEmmcHealthLifetimeA then some "0x2"
  else if path = kEmmcHealthLifetimeB then some "3"
  else none

/-- A file system where only the firmware revision and `lifetimeB` exist. -/
def sparseFiles : FileSystem := fun path =>
  if path = kEmmcVersion then some "0x8"
  else if path = kEmmcHealthLifetimeB then some "0x0b"
  else none

/-- A file system whose three life-time files hold 255 in both notations. -/
def numeralFiles : FileSystem := fun path =>
  if path = kEmmcHealthEol then some "255"
  else if path = kEmmcHealthLifetimeA then some "0xff"
  else if path = kEmmcHealthLifetimeB then some "255"
  else none

/-- White space that separates two fields: not empty, all of it white space. -/
def IsSeparator (w : List Char) : Prop := w ≠ [] ∧ ∀ c ∈ w, isspace c = true

/-- Whether a text is a separator can be computed. -/
instance (w : List Char) : Decidable (IsSeparator w) := by
  unfold IsSeparator
  exact inferInstance

/-- The nine calls of the chain, in order, each as a step from the snapshot it
receives to the snapshot it leaves. -/
def chainSteps {W C : Type} (H : Handlers W C) : List (BatteryProperties → Exec W BatteryProperties) :=
  [ fun props => invoke (.battRechargingControl_updateBatteryProperties props)
      (fun w => H.battRechargingControl_updateBatteryProperties w props),
    fun props => invoke (.deviceHealth_update props) (fun w => H.deviceHealth_update w props),
    fun props => invoke (.battThermalControl_updateThermalState props)
      (fun w => H.battThermalControl_updateThermalState w props),
    fun props => invoke (.battInfoUpdate_update props) (fun w => H.battInfoUpdate_update w props),
    fun props => invoke (.battMetricsLogger_logBatteryProperties props)
      (fun w => H.battMetricsLogger_logBatteryProperties w props),
    fun props => invoke (.shutdownMetrics_logShutdownVoltage props)
      (fun w => H.shutdownMetrics_logShutdownVoltage w props),
    fun props => invoke (.ccBackupRestoreBMS_Backup props.batteryLevel)
      (fun w => (H.ccBackupRestoreBMS_Backup w props.batteryLevel).map (fun w1 => (w1, props))),
    fun props => invoke .lcBackupRestore_Backup
      (fun w => (H.lcBackupRestore_Backup w).map (fun w1 => (w1, props))),
    fun props => invoke (.battDefender_update props) (fun w => H.battDefender_update w props) ]

/-- Run steps one after the other; a step that does not return ends the run. -/
def runSteps {W : Type} :
    List (BatteryProperties → Exec W BatteryProperties) → BatteryProperties → Exec W BatteryProperties
  | [], props => fun s => .returned s props
  | step :: steps, props => fun s =>
    match step props s with
    | .returned s1 props1 => runSteps steps props1 s1
    | .aborted l => .aborted l

/-- The value `private_healthd_board_battery_update` returns for a snapshot. -/
def withStatus {W : Type} : Run W BatteryProperties → Run W (Int × BatteryProperties)
  | .returned s props => .returned s (0, props)
  | .aborted l => .aborted l

/-- A step that is one logged call which is not a `Restore`. -/
def IsCallStep {W : Type} (step : BatteryProperties → Exec W BatteryProperties) : Prop :=
  ∃ (c : BatteryProperties → Call) (f : BatteryProperties → W → Option (W × BatteryProperties)),
    (∀ p, (c p).isRestore = false) ∧ step = fun p => invoke (c p) (f p)

/-- A snapshot of a charging battery at 80 percent. -/
def chargingProps : BatteryProperties :=
  { chargerAcOnline := true, chargerUsbOnline := false, chargerWirelessOnline := false,
    maxChargingCurrent := 3000000, maxChargingVoltage := 5000000, batteryStatus := 2,
    batteryHealth := 2, batteryPresent := true, batteryLevel := 80, batteryVoltage := 4100000,
    batteryTemperature := 250, batteryCurrent := 1500000, batteryCycleCount := 12,
    batteryFullCharge := 3000000, batteryChargeCounter := 2400000, batteryTechnology := "Li-ion" }

/-- Controllers over a call counter: the recharge control reports the battery
as charging (status 2), the defender overrides that (status 4, not charging),
the others leave the snapshot as it is. -/
def plainHandlers : ReturningHandlers Nat Unit where
  battRechargingControl_updateBatteryProperties w p := (w + 1, { p with batteryStatus := 2 })
  deviceHealth_update w p := (w + 1, p)
  battThermalControl_updateThermalState w p := (w + 1, p)
  battInfoUpdate_update w p := (w + 1, p)
  battMetricsLogger_logBatteryProperties w p := (w + 1, p)
  shutdownMetrics_logShutdownVoltage w p := (w + 1, p)
  ccBackupRestoreBMS_Backup w _ := w + 1
  lcBackupRestore_Backup w := w + 1
  battDefender_update w p := (w + 1, { p with batteryStatus := 4 })
  ccBackupRestoreBMS_Restore w := w + 1
  lcBackupRestore_Restore w := w + 1
  InitHealthdConfig w c := (w, c)
  make_config := ()

/-- The same controllers, except that the call of the thermal control (third
in the chain) fails and does not return. -/
def faultyHandlers : Handlers Nat Unit :=
  { plainHandlers.toHandlers with battThermalControl_updateThermalState := fun _ _ => none }

/-- The three calls of the bootstrap, in order. -/
def bootCalls : List Call :=
  [Call.InitHealthdConfig, Call.ccBackupRestoreBMS_Restore, Call.lcBackupRestore_Restore]

/-- A statistics file as the kernel writes it: fifteen fields, each padded
with blanks to eight columns, ended by a line feed. -/
def statFiles : FileSystem := fun path =>
  if path = kDiskStatsFile then
    some "    4417      120   356004     2311     1930      845    61768     9120        0     5480    11431        0        0        0        0\n"
  else none

/-- A run of `k` blanks. -/
def blanks (k : Nat) : List Char := List.replicate k (Char.ofNat 32)

/-- Conversions between two copies of the snapshot record. -/
def copyConversions : Conversions BatteryProperties where
  convertFromHealthInfo info _ := info
  convertToHealthInfo props _ := props

/-- A framework record whose legacy part is the charging snapshot. -/
def chargingInfo : HealthInfo BatteryProperties Unit Unit :=
  { legacy := { legacy := chargingProps, others := () }, others := () }

/-! ## Theorems -/

theorem toDigitsCore_fuel (b : Nat) (hb : 2 ≤ b) :
    ∀ n fuel acc, n < fuel →
      Nat.toDigitsCore b fuel n acc = Nat.toDigitsCore b (n + 1) n [] ++ acc := by
  intro n
  induction n using Nat.strong_induction_on with
  | _ n ih =>
    intro fuel acc hlt
    obtain ⟨f, rfl⟩ : ∃ f, fuel = f + 1 := ⟨fuel - 1, by omega⟩
    simp only [Nat.toDigitsCore]
    by_cases h0 : n / b = 0
    · simp [h0]
    · have hpos : 0 < n := by
        rcases Nat.eq_zero_or_pos n with h | h
        · subst h; simp at h0
        · exact h
      have hdiv : n / b < n := Nat.div_lt_self hpos (by omega)
      simp only [h0, if_false]
      rw [ih (n / b) hdiv f _ (by omega), ih (n / b) hdiv n [Nat.digitChar (n % b)] hdiv]
      simp

theorem toDigits_small (b n : Nat) (h : n < b) :
    Nat.toDigits b n = [Nat.digitChar n] := by
  have h0 : n / b = 0 := Nat.div_eq_of_lt h
  simp [Nat.toDigits, Nat.toDigitsCore, h0, Nat.mod_eq_of_lt h]

theorem toDigits_step (b n : Nat) (hb : 2 ≤ b) (h : b ≤ n) :
    Nat.toDigits b n = Nat.toDigits b (n / b) ++ [Nat.digitChar (n % b)] := by
  have h0 : n / b ≠ 0 := by
    intro h0
    have := (Nat.div_eq_zero_iff (by omega : 0 < b)).1 h0
    omega
  have hdiv : n / b < n := Nat.div_lt_self (by omega) (by omega)
  have e : Nat.toDigits b n = Nat.toDigitsCore b n (n / b) [Nat.digitChar (n % b)] := by
    simp only [Nat.toDigits]
    rw [Nat.toDigitsCore]
    simp only [h0, if_false]
  rw [e, toDigitsCore_fuel b hb (n / b) n _ hdiv]
  rfl

theorem digitChar_toNat (d : Nat) (h : d < 16) :
    (Nat.digitChar d).toNat = if d < 10 then 48 + d else 87 + d := by
  interval_cases d <;> rfl

theorem digitValue_digitChar (d : Nat) (h : d < 16) : digitValue (Nat.digitChar d) = some d := by
  interval_cases d <;> rfl

theorem atomIndex_digitChar (d : Nat) (h : d < 16) : atomIndex (Nat.digitChar d) = d := by
  interval_cases d <;> rfl

theorem isspace_digitChar (d : Nat) (h : d < 16) : isspace (Nat.digitChar d) = false := by
  interval_cases d <;> rfl

theorem toDigits_isNumeral (b : Nat) (hb : 2 ≤ b) : ∀ n, IsNumeral b (Nat.toDigits b n) := by
  intro n
  induction n using Nat.strong_induction_on with
  | _ n ih =>
    by_cases h : n < b
    · rw [toDigits_small b n h]
      intro c hc
      exact ⟨n, h, by simpa using hc⟩
    · rw [toDigits_step b n hb (by omega)]
      intro c hc
      rcases List.mem_append.1 hc with hc | hc
      · exact ih (n / b) (Nat.div_lt_self (by omega) (by omega)) c hc
      · exact ⟨n % b, Nat.mod_lt _ (by omega), by simpa using hc⟩

/-- A positive number is written with a non-zero leading digit. -/
theorem toDigits_head (b : Nat) (hb : 2 ≤ b) :
    ∀ n, 0 < n → ∃ d tl, 0 < d ∧ d < b ∧ Nat.toDigits b n = Nat.digitChar d :: tl := by
  intro n
  induction n using Nat.strong_induction_on with
  | _ n ih =>
    intro hpos
    by_cases h : n < b
    · exact ⟨n, [], hpos, h, toDigits_small b n h⟩
    · have hq : 0 < n / b := Nat.div_pos (by omega) (by omega)
      obtain ⟨d, tl, hd0, hdb, e⟩ := ih (n / b) (Nat.div_lt_self (by omega) (by omega)) hq
      exact ⟨d, tl ++ [Nat.digitChar (n % b)], hd0, hdb, by
        rw [toDigits_step b n hb (by omega), e]; rfl⟩

theorem toDigits_ne_nil (b : Nat) (hb : 2 ≤ b) (n : Nat) : Nat.toDigits b n ≠ [] := by
  by_cases h : n < b
  · rw [toDigits_small b n h]; simp
  · rw [toDigits_step b n hb (by omega)]; simp

/-- The digit loop of `strtoull` reads a numeral of base `b` back. -/
theorem digitsLoop_toDigits (b : Nat) (hb : 2 ≤ b) (hb16 : b ≤ 16) :
    ∀ n acc any rest,
      digitsLoop b acc any (Nat.toDigits b n ++ rest) =
        digitsLoop b (acc * b ^ (Nat.toDigits b n).length + n) true rest := by
  intro n
  induction n using Nat.strong_induction_on with
  | _ n ih =>
    intro acc any rest
    by_cases h : n < b
    · rw [toDigits_small b n h]
      simp [digitsLoop, digitValue_digitChar n (by omega), h]
    · rw [toDigits_step b n hb (by omega), List.append_assoc,
        ih (n / b) (Nat.div_lt_self (by omega) (by omega))]
      have hm : n % b < b := Nat.mod_lt _ (by omega)
      simp only [List.singleton_append, digitsLoop, digitValue_digitChar (n % b) (by omega), hm,
        if_true, List.length_append, List.length_singleton]
      congr 1
      have := Nat.div_add_mod n b
      rw [pow_succ]
      nlinarith [Nat.div_add_mod n b]

theorem digitsLoop_stop (b acc : Nat) (any : Bool) (rest : List Char)
    (h : ∀ c, rest.head? = some c → ∀ d, digitValue c = some d → b ≤ d) :
    digitsLoop b acc any rest = (acc, rest, any) := by
  cases rest with
  | nil => rfl
  | cons c cs =>
    simp only [digitsLoop]
    cases hd : digitValue c with
    | none => rfl
    | some d =>
      have := h c rfl d hd
      simp [Nat.not_lt.2 this]

theorem stage2_accept (base : Nat) (xs : List Char)
    (h : ∀ c ∈ xs, ∀ a, stage2_int_loop base a c = some (a ++ [c])) :
    ∀ a rest, stage2 base a (xs ++ rest) = stage2 base (a ++ xs) rest := by
  induction xs with
  | nil => intro a rest; simp
  | cons x xs ih =>
    intro a rest
    have hx := h x (List.mem_cons_self _ _) a
    have e : stage2 base a (x :: (xs ++ rest)) = stage2 base (a ++ [x]) (xs ++ rest) := by
      rw [stage2, hx]
    rw [List.cons_append, e, ih (fun c hc => h c (List.mem_cons_of_mem _ hc))]
    simp

theorem stage2_stop (base : Nat) (a rest : List Char)
    (h : ∀ c, rest.head? = some c → stage2_int_loop base a c = none) :
    stage2 base a rest = (a, rest) := by
  cases rest with
  | nil => rfl
  | cons c cs => simp [stage2, h c rfl]

theorem stage2_int_loop_dec (c : Char) (hc : atomIndex c < 10) (a : List Char) :
    stage2_int_loop 10 a c = some (a ++ [c]) := by
  have h1 : ¬ (atomIndex c = 24 ∨ atomIndex c = 25) := by omega
  have h2 : ¬ (24 ≤ atomIndex c) := by omega
  have h3 : ¬ (10 ≤ atomIndex c) := by omega
  simp [stage2_int_loop, h1, h2, h3]

theorem stage2_int_loop_auto (c : Char) (hc : atomIndex c < 24) (a : List Char) :
    stage2_int_loop 0 a c = some (a ++ [c]) := by
  have h1 : ¬ (atomIndex c = 24 ∨ atomIndex c = 25) := by omega
  have h2 : ¬ (24 ≤ atomIndex c) := by omega
  simp [stage2_int_loop, h1, h2]

theorem stage2_int_loop_dec_end (c : Char) (hc : 10 ≤ atomIndex c) (a : List Char) (ha : a ≠ []) :
    stage2_int_loop 10 a c = none := by
  by_cases h2 : 24 ≤ atomIndex c
  · simp [stage2_int_loop, ha, h2]
  · simp [stage2_int_loop, ha, h2, hc]

theorem stage2_int_loop_auto_end (c : Char) (hc : 24 ≤ atomIndex c) (a : List Char)
    (ha : a ≠ []) : stage2_int_loop 0 a c = none := by
  simp [stage2_int_loop, ha, hc]

theorem atomIndex_of_not_isdigit (c : Char) (h : isdigit c = false) : 10 ≤ atomIndex c := by
  simp only [isdigit, Bool.and_eq_false_iff, decide_eq_false_iff_not] at h
  unfold atomIndex
  simp only
  split_ifs <;> omega

theorem atomIndex_of_isspace (c : Char) (h : isspace c = true) : atomIndex c = 26 := by
  simp only [isspace, Bool.or_eq_true, Bool.and_eq_true, decide_eq_true_eq] at h
  unfold atomIndex
  simp only
  split_ifs <;> omega

/-- Stage 2 in base 10 collects a decimal numeral and stops at the first
character that is not a decimal digit. -/
theorem stage2_dec_numeral (ds rest : List Char) (hds : IsNumeral 10 ds) (hne : ds ≠ [])
    (hrest : ∀ c, rest.head? = some c → isdigit c = false) :
    stage2 10 [] (ds ++ rest) = (ds, rest) := by
  rw [stage2_accept 10 ds ?_ [] rest, List.nil_append]
  · exact stage2_stop 10 ds rest
      (fun c hc => stage2_int_loop_dec_end c (atomIndex_of_not_isdigit c (hrest c hc)) ds hne)
  · intro c hc a
    obtain ⟨d, hd, rfl⟩ := hds c hc
    exact stage2_int_loop_dec _ (by rw [atomIndex_digitChar d (by omega)]; exact hd) a

/-- Stage 2 with a cleared `basefield` collects a field of digits, letters
`a-f` and `x`, and stops at white space or at the end of the text. -/
theorem stage2_auto_field (xs rest : List Char) (hxs : ∀ c ∈ xs, atomIndex c < 24)
    (hne : xs ≠ []) (hrest : ∀ c, rest.head? = some c → isspace c = true) :
    stage2 0 [] (xs ++ rest) = (xs, rest) := by
  rw [stage2_accept 0 xs (fun c hc a => stage2_int_loop_auto c (hxs c hc) a) [] rest,
    List.nil_append]
  exact stage2_stop 0 xs rest (fun c hc => stage2_int_loop_auto_end c
    (by rw [atomIndex_of_isspace c (hrest c hc)]; omega) xs hne)

theorem digitsLoop_numeral (b : Nat) (hb : 2 ≤ b) (hb16 : b ≤ 16) (n : Nat) :
    digitsLoop b 0 false (Nat.toDigits b n) = (n, [], true) := by
  have := digitsLoop_toDigits b hb hb16 n 0 false []
  simpa [digitsLoop] using this

/-- `strtoull` on a text that starts with a digit other than `0`: no white
space, no sign, no base marker; the base is 10 unless one is given. -/
theorem strtoull_plain (base : Nat) (c : Char) (tl : List Char)
    (hsp : isspace c = false) (hm : c ≠ Char.ofNat 45) (hp : c ≠ Char.ofNat 43)
    (hz : c ≠ Char.ofNat 48) :
    strtoull base (c :: tl) =
      match digitsLoop (if base = 0 then 10 else base) 0 false (c :: tl) with
      | (v, rest, any) =>
        if !any then (0, c :: tl, false)
        else if 2 ^ 64 ≤ v then (2 ^ 64 - 1, rest, true)
        else (v, rest, false) := by
  simp only [strtoull, List.dropWhile_cons, hsp, Bool.false_eq_true, if_false, List.head?_cons,
    Option.some.injEq, hm, hp, hz, or_self, decide_False, Bool.and_false, Bool.false_and]

/-- `strtoull` with base detection on `0x` followed by a hexadecimal digit. -/
theorem strtoull_hex_marker (c : Char) (tl : List Char) (d : Nat)
    (hc : digitValue c = some d) (hd : d < 16) :
    strtoull 0 (Char.ofNat 48 :: Char.ofNat 120 :: c :: tl) =
      match digitsLoop 16 0 false (c :: tl) with
      | (v, rest, any) =>
        if !any then (0, Char.ofNat 48 :: Char.ofNat 120 :: c :: tl, false)
        else if 2 ^ 64 ≤ v then (2 ^ 64 - 1, rest, true)
        else (v, rest, false) := by
  have h1 : isspace (Char.ofNat 48) = false := by decide
  have h2 : Char.ofNat 48 ≠ Char.ofNat 45 := by decide
  have h3 : Char.ofNat 48 ≠ Char.ofNat 43 := by decide
  simp only [strtoull, List.dropWhile_cons, h1, Bool.false_eq_true, if_false, List.head?_cons,
    Option.some.injEq, h2, h3, or_self, List.tail_cons, hc, hd, decide_True, true_or,
    Bool.and_self, if_true]

theorem digitChar_plain (d : Nat) (h0 : 0 < d) (h : d < 10) :
    isspace (Nat.digitChar d) = false ∧ Nat.digitChar d ≠ Char.ofNat 45 ∧
      Nat.digitChar d ≠ Char.ofNat 43 ∧ Nat.digitChar d ≠ Char.ofNat 48 := by
  interval_cases d <;> decide

theorem two_pow_64 : (2 : Nat) ^ 64 = 18446744073709551616 := by norm_num

theorem strtoull_dec (base : Nat) (hbase : base = 0 ∨ base = 10) (n : Nat) (hn : n < 2 ^ 64) :
    strtoull base (Nat.toDigits 10 n) = (n, [], false) := by
  rcases Nat.eq_zero_or_pos n with h0 | hpos
  · subst h0
    rcases hbase with rfl | rfl <;> decide
  · obtain ⟨d, tl, hd0, hd10, e⟩ := toDigits_head 10 (by omega) n hpos
    have hloop := digitsLoop_numeral 10 (by omega) (by omega) n
    obtain ⟨c1, c2, c3, c4⟩ := digitChar_plain d hd0 hd10
    have hb : (if base = 0 then 10 else base) = 10 := by rcases hbase with rfl | rfl <;> rfl
    rw [e] at hloop ⊢
    rw [strtoull_plain base _ tl c1 c2 c3 c4, hb, hloop]
    have hn2 : n < 18446744073709551616 := by rw [← two_pow_64]; exact hn
    simp [hn2]

theorem strtoull_hex (n : Nat) (hn : n < 2 ^ 64) :
    strtoull 0 (Char.ofNat 48 :: Char.ofNat 120 :: Nat.toDigits 16 n) = (n, [], false) := by
  obtain ⟨d, tl, hd, e⟩ : ∃ d tl, d < 16 ∧ Nat.toDigits 16 n = Nat.digitChar d :: tl := by
    have hnum := toDigits_isNumeral 16 (by omega) n
    cases hl : Nat.toDigits 16 n with
    | nil => exact absurd hl (toDigits_ne_nil 16 (by omega) n)
    | cons c tl =>
      obtain ⟨d, hd, rfl⟩ := hnum c (by rw [hl]; exact List.mem_cons_self _ _)
      exact ⟨d, tl, hd, rfl⟩
  have hloop := digitsLoop_numeral 16 (by omega) (by omega) n
  rw [e] at hloop ⊢
  rw [strtoull_hex_marker _ tl d (digitValue_digitChar d hd) hd, hloop]
  have hn2 : n < 18446744073709551616 := by rw [← two_pow_64]; exact hn
  simp [hn2]

theorem digitChar_ne_minus (d : Nat) (h : d < 16) : Nat.digitChar d ≠ Char.ofNat 45 := by
  interval_cases d <;> decide

/-- Stage 3 on a decimal numeral below `2 ^ w` stores the number. -/
theorem num_get_dec (w base : Nat) (hbase : base = 0 ∨ base = 10) (hw : w ≤ 64) (n : Nat)
    (hn : n < 2 ^ w) : num_get_unsigned_integral w base (Nat.toDigits 10 n) = (n, false) := by
  have hn64 : n < 2 ^ 64 := lt_of_lt_of_le hn (Nat.pow_le_pow_right (by omega) hw)
  obtain ⟨d, tl, hd, e⟩ : ∃ d tl, d < 10 ∧ Nat.toDigits 10 n = Nat.digitChar d :: tl := by
    have hnum := toDigits_isNumeral 10 (by omega) n
    cases hl : Nat.toDigits 10 n with
    | nil => exact absurd hl (toDigits_ne_nil 10 (by omega) n)
    | cons c tl =>
      obtain ⟨d, hd, rfl⟩ := hnum c (by rw [hl]; exact List.mem_cons_self _ _)
      exact ⟨d, tl, hd, rfl⟩
  have hs := strtoull_dec base hbase n hn64
  rw [e] at hs ⊢
  have hle : ¬ (2 ^ w - 1 < n) := by omega
  simp [num_get_unsigned_integral, digitChar_ne_minus d (by omega), hs, hle]

/-- Stage 3 with base detection on `0x` and a hexadecimal numeral below
`2 ^ w` stores the number. -/
theorem num_get_hex (w : Nat) (hw : w ≤ 64) (n : Nat) (hn : n < 2 ^ w) :
    num_get_unsigned_integral w 0 (Char.ofNat 48 :: Char.ofNat 120 :: Nat.toDigits 16 n)
      = (n, false) := by
  have hn64 : n < 2 ^ 64 := lt_of_lt_of_le hn (Nat.pow_le_pow_right (by omega) hw)
  have hs := strtoull_hex n hn64
  have hle : ¬ (2 ^ w - 1 < n) := by omega
  have h2 : Char.ofNat 48 ≠ Char.ofNat 45 := by decide
  simp [num_get_unsigned_integral, h2, hs, hle]

theorem dropWhile_isspace_append (ws tl : List Char) (hws : ∀ c ∈ ws, isspace c = true)
    (htl : ∀ c, tl.head? = some c → isspace c = false) :
    (ws ++ tl).dropWhile isspace = tl := by
  induction ws with
  | nil =>
    cases tl with
    | nil => rfl
    | cons c cs => simp [List.dropWhile_cons, htl c rfl]
  | cons x xs ih =>
    simp only [List.cons_append, List.dropWhile_cons, hws x (List.mem_cons_self _ _), if_true]
    exact ih (fun c hc => hws c (List.mem_cons_of_mem _ hc))

/-- Extraction of a decimal numeral from a good stream in base 10: leading
white space is skipped, the number is stored, the rest stays unread. -/
theorem extractUnsigned_dec (w : Nat) (hw : w ≤ 64) (ws rest : List Char) (n old : Nat)
    (hn : n < 2 ^ w) (hws : ∀ c ∈ ws, isspace c = true)
    (hrest : ∀ c, rest.head? = some c → isdigit c = false) :
    extractUnsigned w
        { buf := ws ++ (Nat.toDigits 10 n ++ rest), failbit := false, eofbit := false, base := 10 }
        old =
      ({ buf := rest, failbit := false, eofbit := decide (rest = []), base := 10 }, n) := by
  have hnum := toDigits_isNumeral 10 (by omega) n
  have hne := toDigits_ne_nil 10 (by omega) n
  have hdrop : (ws ++ (Nat.toDigits 10 n ++ rest)).dropWhile isspace
      = Nat.toDigits 10 n ++ rest := by
    apply dropWhile_isspace_append ws _ hws
    intro c hc
    cases hl : Nat.toDigits 10 n with
    | nil => exact absurd hl hne
    | cons x xs =>
      rw [hl] at hc
      obtain ⟨d, hd, rfl⟩ := hnum x (by rw [hl]; exact List.mem_cons_self _ _)
      simp only [List.cons_append, List.head?_cons, Option.some.injEq] at hc
      rw [← hc]
      exact isspace_digitChar d (by omega)
  have hne2 : Nat.toDigits 10 n ++ rest ≠ [] := by simp [hne]
  simp only [extractUnsigned, IStream.good, hdrop, hne2, stage2_dec_numeral _ rest hnum hne hrest,
    num_get_dec w 10 (Or.inr rfl) hw n hn, Bool.not_false, Bool.and_self, Bool.not_true,
    Bool.false_eq_true, if_false]

theorem read_value_missing (fs : FileSystem) (w : Nat) (path : String) (old : Nat)
    (h : fs path = none) : read_value_from_file fs w path old = old := by
  simp [read_value_from_file, assert_open, h, extractUnsigned, IStream.good,
    IStream.unsetf_basefield]

theorem extractUnsigned_auto (w : Nat) (xs : List Char) (n old : Nat)
    (hxs : ∀ c ∈ xs, atomIndex c < 24) (hne : xs ≠ [])
    (hsp : ∀ c, xs.head? = some c → isspace c = false)
    (hval : num_get_unsigned_integral w 0 xs = (n, false)) :
    (extractUnsigned w { buf := xs, failbit := false, eofbit := false, base := 0 } old).2 = n := by
  have hdrop : xs.dropWhile isspace = xs := by
    have := dropWhile_isspace_append [] xs (by simp) hsp
    simpa using this
  have hst : stage2 0 [] xs = (xs, []) := by
    have := stage2_auto_field xs [] hxs hne (by simp)
    simpa using this
  simp [extractUnsigned, IStream.good, hdrop, hne, hst, hval]

theorem read_value_dec (fs : FileSystem) (w : Nat) (hw : w ≤ 64) (path : String) (v old : Nat)
    (hv : v < 2 ^ w) (h : fs path = some (toString v)) :
    read_value_from_file fs w path old = v := by
  have hnum := toDigits_isNumeral 10 (by omega) v
  have hne := toDigits_ne_nil 10 (by omega) v
  have hdata : (toString v).data = Nat.toDigits 10 v := rfl
  simp only [read_value_from_file, assert_open, h, IStream.unsetf_basefield, hdata]
  apply extractUnsigned_auto w _ v old _ hne _ (num_get_dec w 0 (Or.inl rfl) hw v hv)
  · intro c hc
    obtain ⟨d, hd, rfl⟩ := hnum c hc
    rw [atomIndex_digitChar d (by omega)]; omega
  · intro c hc
    cases hl : Nat.toDigits 10 v with
    | nil => exact absurd hl hne
    | cons x xs =>
      obtain ⟨d, hd, rfl⟩ := hnum x (by rw [hl]; exact List.mem_cons_self _ _)
      rw [hl] at hc
      simp only [List.head?_cons, Option.some.injEq] at hc
      rw [← hc]
      exact isspace_digitChar d (by omega)

theorem read_value_hex (fs : FileSystem) (w : Nat) (hw : w ≤ 64) (path : String) (v old : Nat)
    (hv : v < 2 ^ w) (h : fs path = some ("0x" ++ hexString v)) :
    read_value_from_file fs w path old = v := by
  have hnum := toDigits_isNumeral 16 (by omega) v
  have hdata : ("0x" ++ hexString v).data
      = Char.ofNat 48 :: Char.ofNat 120 :: Nat.toDigits 16 v := by
    simp [hexString, String.data_append]
  simp only [read_value_from_file, assert_open, h, IStream.unsetf_basefield, hdata]
  apply extractUnsigned_auto w _ v old _ (by simp) _ (num_get_hex w hw v hv)
  · intro c hc
    rcases List.mem_cons.1 hc with rfl | hc
    · decide
    rcases List.mem_cons.1 hc with rfl | hc
    · decide
    obtain ⟨d, hd, rfl⟩ := hnum c hc
    rw [atomIndex_digitChar d hd]; omega
  · intro c hc
    simp only [List.head?_cons, Option.some.injEq] at hc
    rw [← hc]
    decide

/-- With a cleared `basefield` a file that holds `v` below `2 ^ w` is read as `v`. -/
theorem read_value_holds (fs : FileSystem) (w : Nat) (hw : w ≤ 64) (path : String) (v old : Nat)
    (hv : v < 2 ^ w) (h : HoldsNumber fs path v) : read_value_from_file fs w path old = v := by
  rcases h with h | h
  · exact read_value_dec fs w hw path v old hv h
  · exact read_value_hex fs w hw path v old hv h

theorem getStorageInfo_eq (fs : FileSystem) (uninit : Nat) :
    HealthImpl.getStorageInfo fs uninit = (Result.SUCCESS,
      [{ attr := emmcAttr
         eol := read_value_from_file fs 16 kEmmcHealthEol 0
         lifetimeA := read_value_from_file fs 16 kEmmcHealthLifetimeA 0
         lifetimeB := read_value_from_file fs 16 kEmmcHealthLifetimeB 0
         version := "mmc0 " ++ hexString (read_value_from_file fs 64 kEmmcVersion
           (uninit % 2 ^ 64)) }]) := rfl

theorem getDiskStats_status (fs : FileSystem) :
    ∃ stats, HealthImpl.getDiskStats fs = (Result.SUCCESS, [stats]) ∧ stats.attr = emmcAttr :=
  ⟨_, rfl, rfl⟩

/-- C2, counterexample: with no storage source at all (no file can be opened)
the query still answers `SUCCESS` with a one-element list, not
`(NOT_SUPPORTED, [])`. -/
theorem getStorageInfo_no_source_not_unsupported :
    HealthImpl.getStorageInfo noFiles 0 ≠ (Result.NOT_SUPPORTED, []) ∧
      (HealthImpl.getStorageInfo noFiles 0).1 = Result.SUCCESS ∧
      (HealthImpl.getStorageInfo noFiles 0).2.length = 1 := by
  decide

/-- C2, amended: `getStorageInfo` always answers `SUCCESS` with exactly one
entry, the hard-wired eMMC device, also when no source exists; when the four
sources hold numbers, the entry carries exactly those numbers (the version as
`mmc0` and the number in hexadecimal); and the status is `NOT_SUPPORTED`
exactly when the list is empty, `SUCCESS` otherwise. -/
theorem getStorageInfo_single_source (fs : FileSystem) (uninit : Nat) :
    (∃ info, HealthImpl.getStorageInfo fs uninit = (Result.SUCCESS, [info])) ∧
    (∀ v e a b, v < 2 ^ 64 → e < 2 ^ 16 → a < 2 ^ 16 → b < 2 ^ 16 →
      HoldsNumber fs kEmmcVersion v → HoldsNumber fs kEmmcHealthEol e →
      HoldsNumber fs kEmmcHealthLifetimeA a → HoldsNumber fs kEmmcHealthLifetimeB b →
      HealthImpl.getStorageInfo fs uninit = (Result.SUCCESS,
        [{ attr := { isInternal := true, isBootDevice := true, name := "MMC0" }
           eol := e, lifetimeA := a, lifetimeB := b
           version := "mmc0 " ++ hexString v }])) ∧
    ((HealthImpl.getStorageInfo fs uninit).1 = Result.NOT_SUPPORTED ↔
      (HealthImpl.getStorageInfo fs uninit).2 = []) ∧
    ((HealthImpl.getStorageInfo fs uninit).1 = Result.SUCCESS ↔
      (HealthImpl.getStorageInfo fs uninit).2 ≠ []) := by
  refine ⟨⟨_, getStorageInfo_eq fs uninit⟩, ?_, ?_, ?_⟩
  · intro v e a b hv he ha hb h1 h2 h3 h4
    rw [getStorageInfo_eq, read_value_holds fs 64 (by omega) _ v _ hv h1,
      read_value_holds fs 16 (by omega) _ e _ he h2,
      read_value_holds fs 16 (by omega) _ a _ ha h3,
      read_value_holds fs 16 (by omega) _ b _ hb h4]
    rfl
  · rw [getStorageInfo_eq]; simp
  · rw [getStorageInfo_eq]; simp

/-- Witness for C2 (amended): the sample device. -/
theorem getStorageInfo_single_source_witness :
    HealthImpl.getStorageInfo sampleFiles 77 = (Result.SUCCESS,
      [{ attr := { isInternal := true, isBootDevice := true, name := "MMC0" }
         eol := 1, lifetimeA := 2, lifetimeB := 3, version := "mmc0 8" }]) :=
  (getStorageInfo_single_source sampleFiles 77).2.1 8 1 2 3 (by decide) (by decide) (by decide)
    (by decide) (Or.inl (by decide)) (Or.inl (by decide)) (Or.inr (by decide))
    (Or.inl (by decide))

/-- C3: when the end-of-life file cannot be opened the query still answers
`SUCCESS` with one entry whose `eol` is zero, whatever the other files hold;
the same for `lifetimeA` and `lifetimeB`. -/
theorem getStorageInfo_missing_source_zero (fs : FileSystem) (uninit : Nat) :
    (fs kEmmcHealthEol = none →
      ∃ info, HealthImpl.getStorageInfo fs uninit = (Result.SUCCESS, [info]) ∧ info.eol = 0) ∧
    (fs kEmmcHealthLifetimeA = none →
      ∃ info, HealthImpl.getStorageInfo fs uninit = (Result.SUCCESS, [info]) ∧
        info.lifetimeA = 0) ∧
    (fs kEmmcHealthLifetimeB = none →
      ∃ info, HealthImpl.getStorageInfo fs uninit = (Result.SUCCESS, [info]) ∧
        info.lifetimeB = 0) := by
  refine ⟨fun h => ⟨_, getStorageInfo_eq fs uninit, ?_⟩,
    fun h => ⟨_, getStorageInfo_eq fs uninit, ?_⟩,
    fun h => ⟨_, getStorageInfo_eq fs uninit, ?_⟩⟩
  · exact read_value_missing fs 16 _ 0 h
  · exact read_value_missing fs 16 _ 0 h
  · exact read_value_missing fs 16 _ 0 h

/-- Witness for C3: the end-of-life and
`lifetimeA` files are missing, `lifetimeB` holds `0x0b`. -/
theorem getStorageInfo_missing_source_zero_witness :
    sparseFiles kEmmcHealthEol = none ∧ sparseFiles kEmmcHealthLifetimeA = none ∧
    (∃ info, HealthImpl.getStorageInfo sparseFiles 5 = (Result.SUCCESS, [info]) ∧
      info.eol = 0) ∧
    (∃ info, HealthImpl.getStorageInfo sparseFiles 5 = (Result.SUCCESS, [info]) ∧
      info.lifetimeA = 0) :=
  ⟨by decide, by decide,
    (getStorageInfo_missing_source_zero sparseFiles 5).1 (by decide),
    (getStorageInfo_missing_source_zero sparseFiles 5).2.1 (by decide)⟩

/-- C4, the code at the failing input: the firmware-revision file cannot be
opened, so the failed read leaves the uninitialised local `value` as it was.
With `0xdeadbeef` in that stack slot the version is `mmc0 deadbeef`, not
`mmc0 0`, and another content of the slot gives another string. -/
theorem read_emmc_version_missing_source_indeterminate :
    noFiles kEmmcVersion = none ∧
    (read_emmc_version noFiles 3735928559 StorageInfo.zero).version = "mmc0 deadbeef" ∧
    (read_emmc_version noFiles 3735928559 StorageInfo.zero).version ≠ "mmc0 0" ∧
    (read_emmc_version noFiles 7 StorageInfo.zero).version = "mmc0 7" ∧
    (HealthImpl.getStorageInfo noFiles 3735928559).2.map StorageInfo.version
      = ["mmc0 deadbeef"] := by
  decide

/-- C5: with automatic base detection, for every `v` below `2 ^ 16`, a source
whose text is the decimal numeral of `v`, or `0x` followed by the hexadecimal
numeral of `v`, makes the `eol`, `lifetimeA` or `lifetimeB` field of the
returned entry equal to `v`. -/
theorem getStorageInfo_auto_base (fs : FileSystem) (uninit v : Nat) (hv : v < 2 ^ 16) :
    ((fs kEmmcHealthEol = some (toString v) ∨ fs kEmmcHealthEol = some ("0x" ++ hexString v)) →
      (HealthImpl.getStorageInfo fs uninit).2.map StorageInfo.eol = [v]) ∧
    ((fs kEmmcHealthLifetimeA = some (toString v) ∨
        fs kEmmcHealthLifetimeA = some ("0x" ++ hexString v)) →
      (HealthImpl.getStorageInfo fs uninit).2.map StorageInfo.lifetimeA = [v]) ∧
    ((fs kEmmcHealthLifetimeB = some (toString v) ∨
        fs kEmmcHealthLifetimeB = some ("0x" ++ hexString v)) →
      (HealthImpl.getStorageInfo fs uninit).2.map StorageInfo.lifetimeB = [v]) := by
  refine ⟨fun h => ?_, fun h => ?_, fun h => ?_⟩ <;> rw [getStorageInfo_eq] <;>
    simp only [List.map_cons, List.map_nil] <;>
    rw [read_value_holds fs 16 (by omega) _ v 0 hv h]

/-- Witness for C5: 255 written as `255` and as `0xff`. -/
theorem getStorageInfo_auto_base_witness :
    (255 < 2 ^ 16) ∧
    (HealthImpl.getStorageInfo numeralFiles 0).2.map StorageInfo.eol = [255] ∧
    (HealthImpl.getStorageInfo numeralFiles 0).2.map StorageInfo.lifetimeA = [255] ∧
    (HealthImpl.getStorageInfo numeralFiles 0).2.map StorageInfo.lifetimeB = [255] :=
  ⟨by decide,
    (getStorageInfo_auto_base numeralFiles 0 255 (by decide)).1 (Or.inl (by decide)),
    (getStorageInfo_auto_base numeralFiles 0 255 (by decide)).2.1 (Or.inr (by decide)),
    (getStorageInfo_auto_base numeralFiles 0 255 (by decide)).2.2 (Or.inl (by decide))⟩

/-- C10: whatever the files hold (present, missing or malformed), both
queries answer `SUCCESS` with exactly one entry whose attribute is internal,
boot device, named `MMC0`; neither answers `NOT_SUPPORTED`. -/
theorem queries_always_one_emmc_entry (fs : FileSystem) (uninit : Nat) :
    (∃ info, HealthImpl.getStorageInfo fs uninit = (Result.SUCCESS, [info]) ∧
      info.attr = { isInternal := true, isBootDevice := true, name := "MMC0" }) ∧
    (∃ stats, HealthImpl.getDiskStats fs = (Result.SUCCESS, [stats]) ∧
      stats.attr = { isInternal := true, isBootDevice := true, name := "MMC0" }) ∧
    (HealthImpl.getStorageInfo fs uninit).1 ≠ Result.NOT_SUPPORTED ∧
    (HealthImpl.getDiskStats fs).1 ≠ Result.NOT_SUPPORTED :=
  ⟨⟨_, getStorageInfo_eq fs uninit, rfl⟩, getDiskStats_status fs,
    by rw [getStorageInfo_eq]; simp,
    by obtain ⟨s, h, _⟩ := getDiskStats_status fs; rw [h]; simp⟩

/-- Extraction of a decimal numeral that is followed by white space: the
stream stays good for the next extraction. -/
theorem extractUnsigned_dec_more (ws : List Char) (n old : Nat) (c : Char) (rest : List Char)
    (hn : n < 2 ^ 64) (hws : ∀ x ∈ ws, isspace x = true) (hc : isspace c = true) :
    extractUnsigned 64
        { buf := ws ++ (Nat.toDigits 10 n ++ c :: rest), failbit := false, eofbit := false,
          base := 10 } old =
      ({ buf := c :: rest, failbit := false, eofbit := false, base := 10 }, n) := by
  rw [extractUnsigned_dec 64 (by omega) ws (c :: rest) n old hn hws]
  · simp
  · intro x hx
    simp only [List.head?_cons, Option.some.injEq] at hx
    subst hx
    have := atomIndex_of_isspace c hc
    simp only [isspace, Bool.or_eq_true, Bool.and_eq_true, decide_eq_true_eq] at hc
    simp only [isdigit, Bool.and_eq_false_iff, decide_eq_false_iff_not]
    omega

/-- The same, after a separator `c :: t` that the previous extraction left
unread. -/
theorem extractUnsigned_dec_next (c : Char) (t : List Char) (n old : Nat) (c1 : Char)
    (rest : List Char) (hn : n < 2 ^ 64) (hc : isspace c = true)
    (ht : ∀ x ∈ t, isspace x = true) (hc1 : isspace c1 = true) :
    extractUnsigned 64
        { buf := c :: (t ++ (Nat.toDigits 10 n ++ c1 :: rest)), failbit := false,
          eofbit := false, base := 10 } old =
      ({ buf := c1 :: rest, failbit := false, eofbit := false, base := 10 }, n) := by
  have h := extractUnsigned_dec_more (c :: t) n old c1 rest hn (by simpa [hc] using ht) hc1
  rwa [List.cons_append] at h

/-- The last field: what follows it is the end of the text or a character that
is not a digit. -/
theorem extractUnsigned_dec_last (c : Char) (t : List Char) (n old : Nat) (rest : List Char)
    (hn : n < 2 ^ 64) (hc : isspace c = true) (ht : ∀ x ∈ t, isspace x = true)
    (hrest : ∀ x, rest.head? = some x → isdigit x = false) :
    (extractUnsigned 64
        { buf := c :: (t ++ (Nat.toDigits 10 n ++ rest)), failbit := false,
          eofbit := false, base := 10 } old).2 = n := by
  have h := extractUnsigned_dec 64 (by omega) (c :: t) rest n old hn (by simpa [hc] using ht)
    hrest
  rw [List.cons_append] at h
  rw [h]

theorem IsSeparator.cons_form {w : List Char} (h : IsSeparator w) :
    ∃ c tl, w = c :: tl ∧ isspace c = true ∧ ∀ x ∈ tl, isspace x = true := by
  cases w with
  | nil => exact absurd rfl h.1
  | cons c tl =>
    exact ⟨c, tl, rfl, h.2 c (List.mem_cons_self _ _),
      fun x hx => h.2 x (List.mem_cons_of_mem _ hx)⟩

/-- C9: when the text of the statistics file begins with eleven decimal
numerals `n1 .. n11` below `2 ^ 64`, separated by white space (and possibly
preceded by white space), `getDiskStats` answers with one entry whose
counters are `n1 .. n11` in the order of the record; whatever follows the
eleventh numeral (nothing, or text that does not start with a digit) is
ignored. -/
theorem getDiskStats_reads_eleven_counters (fs : FileSystem)
    (n1 n2 n3 n4 n5 n6 n7 n8 n9 n10 n11 : Nat)
    (w0 w1 w2 w3 w4 w5 w6 w7 w8 w9 w10 rest : List Char)
    (hn : ∀ n ∈ [n1, n2, n3, n4, n5, n6, n7, n8, n9, n10, n11], n < 2 ^ 64)
    (hw0 : ∀ c ∈ w0, isspace c = true)
    (hw : ∀ w ∈ [w1, w2, w3, w4, w5, w6, w7, w8, w9, w10], IsSeparator w)
    (hrest : ∀ c, rest.head? = some c → isdigit c = false)
    (hfile : fs kDiskStatsFile = some (String.mk (
      w0 ++ Nat.toDigits 10 n1 ++ w1 ++ Nat.toDigits 10 n2 ++ w2 ++ Nat.toDigits 10 n3 ++
      w3 ++ Nat.toDigits 10 n4 ++ w4 ++ Nat.toDigits 10 n5 ++ w5 ++ Nat.toDigits 10 n6 ++
      w6 ++ Nat.toDigits 10 n7 ++ w7 ++ Nat.toDigits 10 n8 ++ w8 ++ Nat.toDigits 10 n9 ++
      w9 ++ Nat.toDigits 10 n10 ++ w10 ++ Nat.toDigits 10 n11 ++ rest))) :
    HealthImpl.getDiskStats fs = (Result.SUCCESS,
      [{ reads := n1, readMerges := n2, readSectors := n3, readTicks := n4, writes := n5,
         writeMerges := n6, writeSectors := n7, writeTicks := n8, ioInFlight := n9,
         ioTicks := n10, ioInQueue := n11,
         attr := { isInternal := true, isBootDevice := true, name := "MMC0" } }]) := by
  simp only [List.mem_cons, List.mem_singleton, forall_eq_or_imp, forall_eq, List.not_mem_nil,
    false_imp_iff, implies_true, and_true] at hn hw
  obtain ⟨h1, h2, h3, h4, h5, h6, h7, h8, h9, h10, h11⟩ := hn
  obtain ⟨s1, s2, s3, s4, s5, s6, s7, s8, s9, s10⟩ := hw
  obtain ⟨c1, t1, rfl, hc1, ht1⟩ := s1.cons_form
  obtain ⟨c2, t2, rfl, hc2, ht2⟩ := s2.cons_form
  obtain ⟨c3, t3, rfl, hc3, ht3⟩ := s3.cons_form
  obtain ⟨c4, t4, rfl, hc4, ht4⟩ := s4.cons_form
  obtain ⟨c5, t5, rfl, hc5, ht5⟩ := s5.cons_form
  obtain ⟨c6, t6, rfl, hc6, ht6⟩ := s6.cons_form
  obtain ⟨c7, t7, rfl, hc7, ht7⟩ := s7.cons_form
  obtain ⟨c8, t8, rfl, hc8, ht8⟩ := s8.cons_form
  obtain ⟨c9, t9, rfl, hc9, ht9⟩ := s9.cons_form
  obtain ⟨c10, t10, rfl, hc10, ht10⟩ := s10.cons_form
  have e : HealthImpl.getDiskStats fs = (Result.SUCCESS, private_get_disk_stats fs []) := rfl
  rw [e]
  simp only [private_get_disk_stats, resize, assert_open, hfile, List.take_nil, List.length_nil,
    Nat.sub_zero, List.replicate_one, List.nil_append, List.append_assoc, List.cons_append,
    DiskStats.zero]
  rw [extractUnsigned_dec_more w0 n1 0 c1 _ h1 hw0 hc1]
  simp only []
  rw [extractUnsigned_dec_next c1 t1 n2 0 c2 _ h2 hc1 ht1 hc2]
  simp only []
  rw [extractUnsigned_dec_next c2 t2 n3 0 c3 _ h3 hc2 ht2 hc3]
  simp only []
  rw [extractUnsigned_dec_next c3 t3 n4 0 c4 _ h4 hc3 ht3 hc4]
  simp only []
  rw [extractUnsigned_dec_next c4 t4 n5 0 c5 _ h5 hc4 ht4 hc5]
  simp only []
  rw [extractUnsigned_dec_next c5 t5 n6 0 c6 _ h6 hc5 ht5 hc6]
  simp only []
  rw [extractUnsigned_dec_next c6 t6 n7 0 c7 _ h7 hc6 ht6 hc7]
  simp only []
  rw [extractUnsigned_dec_next c7 t7 n8 0 c8 _ h8 hc7 ht7 hc8]
  simp only []
  rw [extractUnsigned_dec_next c8 t8 n9 0 c9 _ h9 hc8 ht8 hc9]
  simp only []
  rw [extractUnsigned_dec_next c9 t9 n10 0 c10 _ h10 hc9 ht9 hc10]
  simp only []
  rw [extractUnsigned_dec_last c10 t10 n11 0 rest h11 hc10 ht10 hrest]
  rfl

/-- C1: for every snapshot (and controllers whose calls return), the chain
calls each of the nine handlers exactly once, in the order recharge control,
device health, thermal control, info update, metrics logger, shutdown
metrics, cycle-count `Backup`, learned-capacity `Backup`, defender. Each
handler that takes the snapshot receives it as the handlers before it left
it, the cycle-count `Backup` receives the battery level of that snapshot, the
learned-capacity `Backup` takes no argument; the snapshot the chain returns
is the output of the defender, so every field of it is what the defender
left. -/
theorem battery_update_calls_nine_in_order {W C : Type} (T : ReturningHandlers W C)
    (s : Sys W) (props : BatteryProperties) :
    let r1 := T.battRechargingControl_updateBatteryProperties s.world props
    let r2 := T.deviceHealth_update r1.1 r1.2
    let r3 := T.battThermalControl_updateThermalState r2.1 r2.2
    let r4 := T.battInfoUpdate_update r3.1 r3.2
    let r5 := T.battMetricsLogger_logBatteryProperties r4.1 r4.2
    let r6 := T.shutdownMetrics_logShutdownVoltage r5.1 r5.2
    let w7 := T.ccBackupRestoreBMS_Backup r6.1 r6.2.batteryLevel
    let w8 := T.lcBackupRestore_Backup w7
    let r9 := T.battDefender_update w8 r6.2
    private_healthd_board_battery_update T.toHandlers props s =
      Run.returned
        { world := r9.1
          log := s.log ++ [
            Call.battRechargingControl_updateBatteryProperties props,
            Call.deviceHealth_update r1.2,
            Call.battThermalControl_updateThermalState r2.2,
            Call.battInfoUpdate_update r3.2,
            Call.battMetricsLogger_logBatteryProperties r4.2,
            Call.shutdownMetrics_logShutdownVoltage r5.2,
            Call.ccBackupRestoreBMS_Backup r6.2.batteryLevel,
            Call.lcBackupRestore_Backup,
            Call.battDefender_update r6.2] }
        (0, r9.2) := by
  simp [private_healthd_board_battery_update, invoke, invokeVoid, bind, Exec.bind, pure,
    ReturningHandlers.toHandlers]

theorem invoke_cases {W α : Type} (c : Call) (f : W → Option (W × α)) (s : Sys W) :
    (∃ w a, invoke c f s = .returned { world := w, log := s.log ++ [c] } a) ∨
      invoke c f s = .aborted (s.log ++ [c]) := by
  unfold invoke
  cases f s.world with
  | none => exact Or.inr rfl
  | some r => exact Or.inl ⟨r.1, r.2, rfl⟩

theorem battery_update_eq_runSteps {W C : Type} (H : Handlers W C) (props : BatteryProperties)
    (s : Sys W) :
    private_healthd_board_battery_update H props s = withStatus (runSteps (chainSteps H) props s) := by
  simp only [private_healthd_board_battery_update, chainSteps, runSteps, bind, Exec.bind,
    invokeVoid, invoke, pure]
  cases H.battRechargingControl_updateBatteryProperties s.world props with
  | none => rfl
  | some r1 =>
  try dsimp only [Option.map]
  cases H.deviceHealth_update r1.1 r1.2 with
  | none => rfl
  | some r2 =>
  try dsimp only [Option.map]
  cases H.battThermalControl_updateThermalState r2.1 r2.2 with
  | none => rfl
  | some r3 =>
  try dsimp only [Option.map]
  cases H.battInfoUpdate_update r3.1 r3.2 with
  | none => rfl
  | some r4 =>
  try dsimp only [Option.map]
  cases H.battMetricsLogger_logBatteryProperties r4.1 r4.2 with
  | none => rfl
  | some r5 =>
  try dsimp only [Option.map]
  cases H.shutdownMetrics_logShutdownVoltage r5.1 r5.2 with
  | none => rfl
  | some r6 =>
  try dsimp only [Option.map]
  cases H.ccBackupRestoreBMS_Backup r6.1 r6.2.batteryLevel with
  | none => rfl
  | some w7 =>
  try dsimp only [Option.map]
  cases H.lcBackupRestore_Backup w7 with
  | none => rfl
  | some w8 =>
  try dsimp only [Option.map]
  cases H.battDefender_update w8 r6.2 with
  | none => rfl
  | some r9 => rfl

theorem chainSteps_isCallStep {W C : Type} (H : Handlers W C) :
    ∀ step ∈ chainSteps H, IsCallStep step := by
  intro step hmem
  simp only [chainSteps, List.mem_cons, List.mem_singleton, List.not_mem_nil, or_false] at hmem
  rcases hmem with h | h | h | h | h | h | h | h | h <;> subst h
  · exact ⟨fun p => .battRechargingControl_updateBatteryProperties p, _, fun _ => rfl, rfl⟩
  · exact ⟨fun p => .deviceHealth_update p, _, fun _ => rfl, rfl⟩
  · exact ⟨fun p => .battThermalControl_updateThermalState p, _, fun _ => rfl, rfl⟩
  · exact ⟨fun p => .battInfoUpdate_update p, _, fun _ => rfl, rfl⟩
  · exact ⟨fun p => .battMetricsLogger_logBatteryProperties p, _, fun _ => rfl, rfl⟩
  · exact ⟨fun p => .shutdownMetrics_logShutdownVoltage p, _, fun _ => rfl, rfl⟩
  · exact ⟨fun p => .ccBackupRestoreBMS_Backup p.batteryLevel, _, fun _ => rfl, rfl⟩
  · exact ⟨fun _ => .lcBackupRestore_Backup, _, fun _ => rfl, rfl⟩
  · exact ⟨fun p => .battDefender_update p, _, fun _ => rfl, rfl⟩

theorem callStep_cases {W : Type} {step : BatteryProperties → Exec W BatteryProperties}
    (h : IsCallStep step) (p : BatteryProperties) (s : Sys W) :
    ∃ c, c.isRestore = false ∧
      ((∃ w p1, step p s = .returned { world := w, log := s.log ++ [c] } p1) ∨
        step p s = .aborted (s.log ++ [c])) := by
  obtain ⟨c, f, hc, rfl⟩ := h
  exact ⟨c p, hc p, invoke_cases (c p) (f p) s⟩

/-- Running call steps only appends calls to the log: one per step when the
run returns, at least one and at most one per step when it does not. -/
theorem runSteps_log {W : Type} :
    ∀ (steps : List (BatteryProperties → Exec W BatteryProperties)),
      (∀ step ∈ steps, IsCallStep step) → ∀ (p : BatteryProperties) (s : Sys W),
      ∃ l, (runSteps steps p s).log = s.log ++ l ∧ (∀ c ∈ l, c.isRestore = false) ∧
        (∀ s1 p1, runSteps steps p s = .returned s1 p1 → l.length = steps.length) ∧
        (∀ l1, runSteps steps p s = .aborted l1 → 1 ≤ l.length ∧ l.length ≤ steps.length) := by
  intro steps
  induction steps with
  | nil =>
    intro _ p s
    exact ⟨[], by simp [runSteps, Run.log], by simp, by simp, by simp [runSteps]⟩
  | cons step steps ih =>
    intro hall p s
    obtain ⟨c, hc, hcase⟩ := callStep_cases (hall step (List.mem_cons_self _ _)) p s
    rcases hcase with ⟨w, p1, h⟩ | h
    · obtain ⟨l, hl, hnr, hret, hab⟩ :=
        ih (fun st hst => hall st (List.mem_cons_of_mem _ hst)) p1
          { world := w, log := s.log ++ [c] }
      have e : runSteps (step :: steps) p s
          = runSteps steps p1 { world := w, log := s.log ++ [c] } := by
        simp only [runSteps, h]
      refine ⟨c :: l, ?_, ?_, ?_, ?_⟩
      · rw [e, hl]; simp
      · intro x hx
        rcases List.mem_cons.1 hx with rfl | hx
        · exact hc
        · exact hnr x hx
      · intro s1 p2 hr
        rw [e] at hr
        simp [hret s1 p2 hr]
      · intro l1 hr
        rw [e] at hr
        have := hab l1 hr
        simp only [List.length_cons]
        omega
    · have e : runSteps (step :: steps) p s = .aborted (s.log ++ [c]) := by
        simp only [runSteps, h]
      refine ⟨[c], by rw [e]; rfl, ?_, ?_, ?_⟩
      · intro x hx
        rw [List.mem_singleton.1 hx]; exact hc
      · intro s1 p2 hr
        rw [e] at hr
        cases hr
      · intro l1 _
        simp

theorem runSteps_append {W : Type} (xs ys : List (BatteryProperties → Exec W BatteryProperties)) :
    ∀ (p : BatteryProperties) (s : Sys W),
      runSteps (xs ++ ys) p s =
        match runSteps xs p s with
        | .returned s1 p1 => runSteps ys p1 s1
        | .aborted l => .aborted l := by
  induction xs with
  | nil => intro p s; rfl
  | cons x xs ih =>
    intro p s
    simp only [List.cons_append, runSteps]
    cases x p s with
    | returned s1 p1 => exact ih p1 s1
    | aborted l => rfl

theorem withStatus_log {W : Type} (r : Run W BatteryProperties) : (withStatus r).log = r.log := by
  cases r <;> rfl

/-- The calls of one run of the chain: appended to the log, none a `Restore`,
nine of them when the chain returns. -/
theorem battery_update_log {W C : Type} (H : Handlers W C) (props : BatteryProperties)
    (s : Sys W) :
    ∃ l, (private_healthd_board_battery_update H props s).log = s.log ++ l ∧
      (∀ c ∈ l, c.isRestore = false) ∧
      (∀ s1 r, private_healthd_board_battery_update H props s = .returned s1 r →
        l.length = 9) := by
  obtain ⟨l, hl, hnr, hret, _⟩ := runSteps_log (chainSteps H) (chainSteps_isCallStep H) props s
  refine ⟨l, by rw [battery_update_eq_runSteps, withStatus_log, hl], hnr, ?_⟩
  intro s1 r hr
  rw [battery_update_eq_runSteps] at hr
  cases hrun : runSteps (chainSteps H) props s with
  | returned s2 p2 => exact hret s2 p2 hrun
  | aborted l2 => rw [hrun] at hr; cases hr

/-- C8, counterexample: the thermal control, third in the chain, fails. The
chain ends with that call: the six later handlers, the defender among them,
are not called and no snapshot is returned. -/
theorem battery_update_fault_ends_chain :
    private_healthd_board_battery_update faultyHandlers chargingProps { world := 0, log := [] } =
      Run.aborted [
        Call.battRechargingControl_updateBatteryProperties chargingProps,
        Call.deviceHealth_update chargingProps,
        Call.battThermalControl_updateThermalState chargingProps] := by
  rfl

/-- C8, amended: the chain does not isolate a failure. For every position `k`
of the chain, when the handlers before it have returned: if the call of the
handler at `k` does not return, the chain ends there, with the `k + 1` calls
up to that one and no later handler called; if the call returns, whatever
went wrong inside it, the chain goes on with all later handlers, starting
from exactly the snapshot and state that handler left. -/
theorem battery_update_fault_not_isolated {W C : Type} (H : Handlers W C) (k : Nat)
    (step : BatteryProperties → Exec W BatteryProperties) (props pk : BatteryProperties)
    (s sk : Sys W) (hstep : (chainSteps H)[k]? = some step)
    (hpre : runSteps ((chainSteps H).take k) props s = .returned sk pk) :
    (∀ l, step pk sk = .aborted l →
      private_healthd_board_battery_update H props s = .aborted l ∧
        l.length = s.log.length + (k + 1)) ∧
    (∀ sk1 pk1, step pk sk = .returned sk1 pk1 →
      private_healthd_board_battery_update H props s
          = withStatus (runSteps ((chainSteps H).drop (k + 1)) pk1 sk1) ∧
        sk1.log.length = s.log.length + (k + 1) ∧
        ((chainSteps H).drop (k + 1)).length = 8 - k) := by
  have hk : k < (chainSteps H).length := by
    rcases Nat.lt_or_ge k (chainSteps H).length with h | h
    · exact h
    · rw [List.getElem?_eq_none h] at hstep; cases hstep
  have hlen : (chainSteps H).length = 9 := rfl
  have hsplit : chainSteps H = (chainSteps H).take k ++ step :: (chainSteps H).drop (k + 1) := by
    have hget : (chainSteps H)[k] = step := by
      rw [List.getElem?_eq_getElem hk] at hstep
      exact Option.some.inj hstep
    rw [← hget, List.getElem_cons_drop _ _ hk, List.take_append_drop]
  have hrun : runSteps (chainSteps H) props s
      = match step pk sk with
        | .returned s1 p1 => runSteps ((chainSteps H).drop (k + 1)) p1 s1
        | .aborted l => .aborted l := by
    conv_lhs => rw [hsplit]
    rw [runSteps_append, hpre]
    simp only [runSteps]
  have hmem : ∀ st ∈ (chainSteps H).take k, IsCallStep st :=
    fun st hst => chainSteps_isCallStep H st (List.mem_of_mem_take hst)
  obtain ⟨l0, hl0, _, hret0, _⟩ := runSteps_log _ hmem props s
  have hl0len : l0.length = k := by
    rw [hret0 sk pk hpre, List.length_take]
    omega
  rw [hpre] at hl0
  simp only [Run.log] at hl0
  obtain ⟨c, _, hc⟩ := callStep_cases
    (chainSteps_isCallStep H step (List.getElem?_mem hstep)) pk sk
  refine ⟨?_, ?_⟩
  · intro l hab
    rw [battery_update_eq_runSteps, hrun, hab]
    refine ⟨rfl, ?_⟩
    rcases hc with ⟨w, p1, h⟩ | h
    · rw [h] at hab; cases hab
    · rw [h] at hab
      injection hab with hab
      rw [← hab, hl0]
      simp [hl0len]
  · intro sk1 pk1 hr
    rw [battery_update_eq_runSteps, hrun, hr]
    refine ⟨rfl, ?_, ?_⟩
    · rcases hc with ⟨w, p1, h⟩ | h
      · rw [h] at hr
        injection hr with hr1 hr2
        rw [← hr1]
        simp [hl0, hl0len]
      · rw [h] at hr; cases hr
    · rw [List.length_drop, hlen]
      omega

/-- Witness for C8 (amended): the failing thermal
control at position 2, after the two handlers before it returned. -/
theorem battery_update_fault_not_isolated_witness :
    private_healthd_board_battery_update faultyHandlers chargingProps { world := 0, log := [] }
        = Run.aborted [
          Call.battRechargingControl_updateBatteryProperties chargingProps,
          Call.deviceHealth_update chargingProps,
          Call.battThermalControl_updateThermalState chargingProps] ∧
      [Call.battRechargingControl_updateBatteryProperties chargingProps,
        Call.deviceHealth_update chargingProps,
        Call.battThermalControl_updateThermalState chargingProps].length = 0 + (2 + 1) :=
  (battery_update_fault_not_isolated faultyHandlers 2
    (fun props => invoke (.battThermalControl_updateThermalState props)
      (fun w => faultyHandlers.battThermalControl_updateThermalState w props))
    chargingProps chargingProps { world := 0, log := [] }
    { world := 2, log := [Call.battRechargingControl_updateBatteryProperties chargingProps,
        Call.deviceHealth_update chargingProps] } rfl rfl).1 _ rfl

/-- `UpdateHealthInfo` is the chain between the two conversions, whatever the
controllers do. -/
theorem UpdateHealthInfo_eq {W C V1 E0 E1 : Type} (H : Handlers W C) (K : Conversions V1)
    (props0 : BatteryProperties) (info : HealthInfo V1 E0 E1) (s : Sys W) :
    HealthImpl.UpdateHealthInfo H K props0 info s =
      match private_healthd_board_battery_update H
          (K.convertFromHealthInfo info.legacy.legacy props0) s with
      | .returned s1 r => .returned s1
          { legacy := { legacy := K.convertToHealthInfo r.2 info.legacy.legacy
                        others := info.legacy.others }
            others := info.others }
      | .aborted l => .aborted l := by
  simp only [HealthImpl.UpdateHealthInfo, bind, Exec.bind, pure]
  cases private_healthd_board_battery_update H
    (K.convertFromHealthInfo info.legacy.legacy props0) s <;> rfl

/-- The chain with controllers that return: it returns, with nine more calls
in the log. -/
theorem battery_update_returns {W C : Type} (T : ReturningHandlers W C) (s : Sys W)
    (props : BatteryProperties) :
    ∃ s1 props1, private_healthd_board_battery_update T.toHandlers props s
        = .returned s1 (0, props1) ∧ s1.log.length = s.log.length + 9 := by
  simp [private_healthd_board_battery_update, invoke, invokeVoid, bind, Exec.bind, pure,
    ReturningHandlers.toHandlers]

/-- C7: for every framework health record, `UpdateHealthInfo` converts its
legacy part to the internal snapshot, runs the monitor chain once on it, and
writes the snapshot the chain left back into the legacy part: the new legacy
part is `convertToHealthInfo (chain (convertFromHealthInfo legacy))`, the
other fields of the record stay. With controllers that return, the update
returns and has made exactly the nine calls of one chain run. -/
theorem UpdateHealthInfo_converts_runs_converts {W C V1 E0 E1 : Type} (H : Handlers W C)
    (T : ReturningHandlers W C) (K : Conversions V1) (props0 : BatteryProperties)
    (info : HealthInfo V1 E0 E1) (s : Sys W) :
    (HealthImpl.UpdateHealthInfo H K props0 info s =
      match private_healthd_board_battery_update H
          (K.convertFromHealthInfo info.legacy.legacy props0) s with
      | .returned s1 r => .returned s1
          { legacy := { legacy := K.convertToHealthInfo r.2 info.legacy.legacy
                        others := info.legacy.others }
            others := info.others }
      | .aborted l => .aborted l) ∧
    (∃ s1 props1,
      private_healthd_board_battery_update T.toHandlers
          (K.convertFromHealthInfo info.legacy.legacy props0) s = .returned s1 (0, props1) ∧
      HealthImpl.UpdateHealthInfo T.toHandlers K props0 info s = .returned s1
          { legacy := { legacy := K.convertToHealthInfo props1 info.legacy.legacy
                        others := info.legacy.others }
            others := info.others } ∧
      s1.log.length = s.log.length + 9) := by
  refine ⟨UpdateHealthInfo_eq H K props0 info s, ?_⟩
  obtain ⟨s1, props1, h, hlen⟩ :=
    battery_update_returns T s (K.convertFromHealthInfo info.legacy.legacy props0)
  exact ⟨s1, props1, h, by rw [UpdateHealthInfo_eq, h], hlen⟩

theorem UpdateHealthInfo_log {W C V1 E0 E1 : Type} (H : Handlers W C) (K : Conversions V1)
    (props0 : BatteryProperties) (info : HealthInfo V1 E0 E1) (s : Sys W) :
    ∃ l, (HealthImpl.UpdateHealthInfo H K props0 info s).log = s.log ++ l ∧
      (∀ c ∈ l, c.isRestore = false) := by
  obtain ⟨l, hl, hnr, _⟩ :=
    battery_update_log H (K.convertFromHealthInfo info.legacy.legacy props0) s
  refine ⟨l, ?_, hnr⟩
  rw [UpdateHealthInfo_eq, ← hl]
  cases private_healthd_board_battery_update H
    (K.convertFromHealthInfo info.legacy.legacy props0) s <;> rfl

theorem serve_log {W C V1 E0 E1 : Type} (H : Handlers W C) (K : Conversions V1)
    (service : HealthImpl C) :
    ∀ (ticks : List (BatteryProperties × HealthInfo V1 E0 E1)) (s : Sys W),
      ∃ l, (serve H K service ticks s).log = s.log ++ l ∧ (∀ c ∈ l, c.isRestore = false) := by
  intro ticks
  induction ticks with
  | nil => intro s; exact ⟨[], by simp [serve, pure, Run.log], by simp⟩
  | cons tick ticks ih =>
    intro s
    obtain ⟨l1, hl1, hnr1⟩ := UpdateHealthInfo_log H K tick.1 tick.2 s
    have e : serve H K service (tick :: ticks) s =
        match HealthImpl.UpdateHealthInfo H K tick.1 tick.2 s with
        | .returned s1 out =>
          (match serve H K service ticks s1 with
            | .returned s2 outs => .returned s2 (out :: outs)
            | .aborted l => .aborted l)
        | .aborted l => .aborted l := by
      simp only [serve, bind, Exec.bind, pure]
      cases HealthImpl.UpdateHealthInfo H K tick.1 tick.2 s with
      | aborted l => rfl
      | returned s1 out =>
        try dsimp only []
        cases serve H K service ticks s1 <;> rfl
    rw [e]
    cases hu : HealthImpl.UpdateHealthInfo H K tick.1 tick.2 s with
    | aborted l =>
      rw [hu] at hl1
      exact ⟨l1, hl1, hnr1⟩
    | returned s1 out =>
      rw [hu] at hl1
      simp only [Run.log] at hl1
      obtain ⟨l2, hl2, hnr2⟩ := ih s1
      refine ⟨l1 ++ l2, ?_, ?_⟩
      · simp only []
        cases hs : serve H K service ticks s1 with
        | aborted l =>
          rw [hs] at hl2
          simp only [Run.log] at hl2 ⊢
          rw [hl2, hl1, List.append_assoc]
        | returned s2 outs =>
          rw [hs] at hl2
          simp only [Run.log] at hl2 ⊢
          rw [hl2, hl1, List.append_assoc]
      · intro c hc
        rcases List.mem_append.1 hc with h | h
        · exact hnr1 c h
        · exact hnr2 c h

/-- The bootstrap either returns a service object after exactly the three
bootstrap calls, or ends in one of them. -/
theorem fetch_cases {W C : Type} (H : Handlers W C) (s : Sys W) :
    (∃ w service, HIDL_FETCH_IHealth H "default" s
        = .returned { world := w, log := s.log ++ bootCalls } (some service)) ∨
    (∃ l, HIDL_FETCH_IHealth H "default" s = .aborted (s.log ++ l) ∧
      (l = bootCalls.take 1 ∨ l = bootCalls.take 2 ∨ l = bootCalls)) := by
  simp only [HIDL_FETCH_IHealth, ne_eq, not_true_eq_false, if_false, bind, Exec.bind, invoke,
    private_healthd_board_init, invokeVoid, pure, bootCalls]
  cases H.InitHealthdConfig s.world H.make_config with
  | none => exact Or.inr ⟨_, rfl, Or.inl rfl⟩
  | some r0 =>
  try dsimp only [Option.map]
  cases H.ccBackupRestoreBMS_Restore r0.1 with
  | none => exact Or.inr ⟨[_, _], by simp, Or.inr (Or.inl rfl)⟩
  | some w1 =>
  try dsimp only [Option.map]
  cases H.lcBackupRestore_Restore w1 with
  | none => exact Or.inr ⟨[_, _, _], by simp, Or.inr (Or.inr rfl)⟩
  | some w2 => exact Or.inl ⟨w2, { config := r0.2 }, by simp⟩

theorem execution_eq {W C V1 E0 E1 : Type} (H : Handlers W C) (K : Conversions V1)
    (ticks : List (BatteryProperties × HealthInfo V1 E0 E1)) (s : Sys W) :
    execution H K "default" ticks s =
      match HIDL_FETCH_IHealth H "default" s with
      | .returned s1 none => .returned s1 none
      | .returned s1 (some service) =>
        (match serve H K service ticks s1 with
          | .returned s2 outs => .returned s2 (some outs)
          | .aborted l => .aborted l)
      | .aborted l => .aborted l := by
  simp only [execution, bind, Exec.bind, pure]
  cases HIDL_FETCH_IHealth H "default" s with
  | aborted l => rfl
  | returned s1 r =>
    cases r with
    | none => rfl
    | some service =>
      try dsimp only []
      cases hs : serve H K service ticks s1 <;> simp only [Exec.bind, hs]

/-- The calls of an execution from a fresh process: a beginning of the
bootstrap calls if the bootstrap did not return, else the three bootstrap
calls followed by calls that are not `Restore` calls. -/
theorem execution_log {W C V1 E0 E1 : Type} (H : Handlers W C) (K : Conversions V1)
    (ticks : List (BatteryProperties × HealthInfo V1 E0 E1)) (w : W) :
    (execution H K "default" ticks { world := w, log := [] }).log = bootCalls.take 1 ∨
    (execution H K "default" ticks { world := w, log := [] }).log = bootCalls.take 2 ∨
    ∃ l, (execution H K "default" ticks { world := w, log := [] }).log = bootCalls ++ l ∧
      ∀ c ∈ l, c.isRestore = false := by
  rw [execution_eq]
  rcases fetch_cases H { world := w, log := [] } with ⟨w1, service, h⟩ | ⟨l, h, hl⟩
  · rw [h]
    obtain ⟨l2, hl2, hnr⟩ := serve_log H K service ticks { world := w1, log := [] ++ bootCalls }
    refine Or.inr (Or.inr ⟨l2, ?_, hnr⟩)
    simp only [List.nil_append] at hl2 ⊢
    cases hs : serve H K service ticks { world := w1, log := bootCalls } with
    | aborted l3 => rw [hs] at hl2; exact hl2
    | returned s2 outs => rw [hs] at hl2; exact hl2
  · rw [h]
    simp only [Run.log, List.nil_append]
    rcases hl with rfl | rfl | rfl
    · exact Or.inl rfl
    · exact Or.inr (Or.inl rfl)
    · exact Or.inr (Or.inr ⟨[], by simp, by simp⟩)

theorem backup_not_restore (c : Call) (h : c.isBackup = true) : c.isRestore = false := by
  cases c <;> first | rfl | cases h

theorem backup_not_boot (c : Call) (h : c.isBackup = true) : c ∉ bootCalls := by
  cases c <;> simp [bootCalls, Call.isBackup] at h ⊢

/-- In a log that starts with the bootstrap calls and has no further `Restore`,
every `Backup` comes after both `Restore` calls, each of which occurs once. -/
theorem restores_first (l : List Call) (hnr : ∀ c ∈ l, c.isRestore = false) :
    (∀ pre c post, bootCalls ++ l = pre ++ c :: post → c.isBackup = true →
      Call.ccBackupRestoreBMS_Restore ∈ pre ∧ Call.lcBackupRestore_Restore ∈ pre) ∧
    (bootCalls ++ l).count Call.ccBackupRestoreBMS_Restore = 1 ∧
    (bootCalls ++ l).count Call.lcBackupRestore_Restore = 1 := by
  refine ⟨?_, ?_, ?_⟩
  · intro pre c post h hc
    rcases List.append_eq_append_iff.1 h with ⟨a, rfl, _⟩ | ⟨b, hb, hcb⟩
    · exact ⟨by simp [bootCalls], by simp [bootCalls]⟩
    · cases b with
      | nil =>
        simp only [List.append_nil] at hb
        rw [← hb]
        exact ⟨by simp [bootCalls], by simp [bootCalls]⟩
      | cons x b =>
        simp only [List.cons_append, List.cons.injEq] at hcb
        have hx : x ∈ bootCalls := by rw [hb]; simp
        rw [← hcb.1] at hx
        exact absurd hx (backup_not_boot c hc)
  · have hz : l.count Call.ccBackupRestoreBMS_Restore = 0 :=
      List.count_eq_zero.2 (fun h => by have := hnr _ h; simp [Call.isRestore] at this)
    rw [List.count_append, hz]
    decide
  · have hz : l.count Call.lcBackupRestore_Restore = 0 :=
      List.count_eq_zero.2 (fun h => by have := hnr _ h; simp [Call.isRestore] at this)
    rw [List.count_append, hz]
    decide

theorem serve_returns {W C V1 E0 E1 : Type} (T : ReturningHandlers W C) (K : Conversions V1)
    (service : HealthImpl C) :
    ∀ (ticks : List (BatteryProperties × HealthInfo V1 E0 E1)) (s : Sys W),
      ∃ s1 outs, serve T.toHandlers K service ticks s = .returned s1 outs ∧
        outs.length = ticks.length ∧ s1.log.length = s.log.length + 9 * ticks.length := by
  intro ticks
  induction ticks with
  | nil => intro s; exact ⟨s, [], rfl, rfl, by simp⟩
  | cons tick ticks ih =>
    intro s
    obtain ⟨s1, p1, hc, hlen⟩ :=
      battery_update_returns T s (K.convertFromHealthInfo tick.2.legacy.legacy tick.1)
    obtain ⟨s2, outs, hs, ho, hl2⟩ := ih s1
    refine ⟨s2,
      { legacy := { legacy := K.convertToHealthInfo p1 tick.2.legacy.legacy
                    others := tick.2.legacy.others }
        others := tick.2.others } :: outs, ?_, by simp [ho], ?_⟩
    · simp only [serve, bind, Exec.bind, pure, UpdateHealthInfo_eq, hc, hs]
    · rw [hl2, hlen, List.length_cons]; ring

/-- The bootstrap with controllers that return. -/
theorem fetch_returns {W C : Type} (T : ReturningHandlers W C) (s : Sys W) :
    HIDL_FETCH_IHealth T.toHandlers "default" s =
      .returned
        { world := T.lcBackupRestore_Restore (T.ccBackupRestoreBMS_Restore
            (T.InitHealthdConfig s.world T.make_config).1)
          log := s.log ++ [Call.InitHealthdConfig, Call.ccBackupRestoreBMS_Restore,
            Call.lcBackupRestore_Restore] }
        (some { config := (T.InitHealthdConfig s.world T.make_config).2 }) := by
  simp [HIDL_FETCH_IHealth, bind, Exec.bind, invoke, private_healthd_board_init, invokeVoid,
    pure, ReturningHandlers.toHandlers]

/-- C6: fetching the service under the name `default` (controllers that
return) calls the cycle-count `Restore` and then the learned-capacity
`Restore`, once each, and only then returns the service object; a process
run with such controllers returns with each `Restore` called exactly once;
and in every execution, whatever the controllers do, each `Backup` call of a
tick comes after both `Restore` calls. -/
theorem restore_once_before_first_tick {W C V1 E0 E1 : Type} (T : ReturningHandlers W C)
    (H : Handlers W C) (K : Conversions V1)
    (ticks : List (BatteryProperties × HealthInfo V1 E0 E1)) (s : Sys W) (w : W) :
    (HIDL_FETCH_IHealth T.toHandlers "default" s =
      .returned
        { world := T.lcBackupRestore_Restore (T.ccBackupRestoreBMS_Restore
            (T.InitHealthdConfig s.world T.make_config).1)
          log := s.log ++ [Call.InitHealthdConfig, Call.ccBackupRestoreBMS_Restore,
            Call.lcBackupRestore_Restore] }
        (some { config := (T.InitHealthdConfig s.world T.make_config).2 })) ∧
    (∃ s1 outs, execution T.toHandlers K "default" ticks { world := w, log := [] }
        = .returned s1 (some outs) ∧ outs.length = ticks.length ∧
      s1.log.count Call.ccBackupRestoreBMS_Restore = 1 ∧
      s1.log.count Call.lcBackupRestore_Restore = 1) ∧
    (∀ pre c post,
      (execution H K "default" ticks { world := w, log := [] }).log = pre ++ c :: post →
      c.isBackup = true →
      Call.ccBackupRestoreBMS_Restore ∈ pre ∧ Call.lcBackupRestore_Restore ∈ pre) := by
  refine ⟨fetch_returns T s, ?_, ?_⟩
  · have hf := fetch_returns T { world := w, log := [] }
    obtain ⟨s1, outs, hs, ho, hl⟩ := serve_returns T K
      { config := (T.InitHealthdConfig w T.make_config).2 } ticks
      { world := T.lcBackupRestore_Restore (T.ccBackupRestoreBMS_Restore
            (T.InitHealthdConfig w T.make_config).1)
        log := [] ++ [Call.InitHealthdConfig, Call.ccBackupRestoreBMS_Restore,
            Call.lcBackupRestore_Restore] }
    have he : execution T.toHandlers K "default" ticks { world := w, log := [] }
        = .returned s1 (some outs) := by
      rw [execution_eq, hf]
      simp only [hs]
    have hlog := execution_log T.toHandlers K ticks w
    rw [he] at hlog
    simp only [Run.log] at hlog
    simp only [List.nil_append, List.length_cons, List.length_nil] at hl
    refine ⟨s1, outs, he, ho, ?_⟩
    rcases hlog with h | h | ⟨l, h, hnr⟩
    · rw [h] at hl; simp [bootCalls] at hl; omega
    · rw [h] at hl; simp [bootCalls] at hl; omega
    · rw [h]; exact (restores_first l hnr).2
  · intro pre c post h hc
    rcases execution_log H K ticks w with h1 | h1 | ⟨l, h1, hnr⟩
    · rw [h1] at h
      have : c ∈ bootCalls := List.mem_of_mem_take (by rw [h]; simp)
      exact absurd this (backup_not_boot c hc)
    · rw [h1] at h
      have : c ∈ bootCalls := List.mem_of_mem_take (by rw [h]; simp)
      exact absurd this (backup_not_boot c hc)
    · rw [h1] at h
      exact (restores_first l hnr).1 pre c post h hc

/-- Witness for C9: the first eleven of the fifteen fields of the sample
statistics file are the counters of the entry. -/
theorem getDiskStats_reads_eleven_counters_witness :
    HealthImpl.getDiskStats statFiles = (Result.SUCCESS,
      [{ reads := 4417, readMerges := 120, readSectors := 356004, readTicks := 2311,
         writes := 1930, writeMerges := 845, writeSectors := 61768, writeTicks := 9120,
         ioInFlight := 0, ioTicks := 5480, ioInQueue := 11431,
         attr := { isInternal := true, isBootDevice := true, name := "MMC0" } }]) :=
  getDiskStats_reads_eleven_counters statFiles 4417 120 356004 2311 1930 845 61768 9120 0 5480
    11431 (blanks 4) (blanks 6) (blanks 3) (blanks 5) (blanks 5) (blanks 6) (blanks 4) (blanks 5) (blanks 8) (blanks 5) (blanks 4)
    "        0        0        0        0\n".data
    (by decide) (by decide) (by decide) (by decide) (by decide)

/-- Witness for C6: one tick after the bootstrap; the cycle-count `Backup` of
that tick is the tenth call, and both `Restore` calls are among the nine
before it. -/
theorem restore_once_before_first_tick_witness :
    Call.ccBackupRestoreBMS_Restore ∈
        [Call.InitHealthdConfig, Call.ccBackupRestoreBMS_Restore, Call.lcBackupRestore_Restore,
          Call.battRechargingControl_updateBatteryProperties chargingProps,
          Call.deviceHealth_update chargingProps,
          Call.battThermalControl_updateThermalState chargingProps,
          Call.battInfoUpdate_update chargingProps,
          Call.battMetricsLogger_logBatteryProperties chargingProps,
          Call.shutdownMetrics_logShutdownVoltage chargingProps] ∧
      Call.lcBackupRestore_Restore ∈
        [Call.InitHealthdConfig, Call.ccBackupRestoreBMS_Restore, Call.lcBackupRestore_Restore,
          Call.battRechargingControl_updateBatteryProperties chargingProps,
          Call.deviceHealth_update chargingProps,
          Call.battThermalControl_updateThermalState chargingProps,
          Call.battInfoUpdate_update chargingProps,
          Call.battMetricsLogger_logBatteryProperties chargingProps,
          Call.shutdownMetrics_logShutdownVoltage chargingProps] :=
  (restore_once_before_first_tick plainHandlers plainHandlers.toHandlers copyConversions
    [(chargingProps, chargingInfo)] { world := 0, log := [] } 0).2.2 _
    (Call.ccBackupRestoreBMS_Backup 80)
    [Call.lcBackupRestore_Backup, Call.battDefender_update chargingProps] rfl rfl

end Health
